import Mathlib

/-!
Shallow embedding of `src/snapshot/embedded/embedded-data.cc` (the V8 embedded
blob builder).  Pure data is modelled with `Nat` and `List Nat` byte buffers;
fatal `CHECK` failures become `Except.error`; constants that live in the
missing header `embedded-data.h` are modelled from the spec and marked as such.
-/

set_option maxHeartbeats 1000000
set_option maxRecDepth 10000

/-- RoundUp(x, m): round `x` up to the next multiple of `m`
(`src/base/macros.h`, used at embedded-data.cc:68, 77, 115, 116). -/
def RoundUp (x m : Nat) : Nat := (x + m - 1) / m * m

/-- Modelled from the spec: `EmbeddedData::PadAndAlign` from the missing
`embedded-data.h` rounds an instruction length up to the fixed code-alignment
constant (spec §4.1: "running total rounded up, before assignment, to a fixed
code alignment boundary"). -/
def PadAndAlign (align n : Nat) : Nat := RoundUp n align

/-- Modelled from the spec: hash fields are machine-word-sized
(`kSizetSize`, spec §6: "machine-word-sized"). -/
def kSizetSize : Nat := 8

/-- Modelled from the spec: metadata region layout constants of the missing
`embedded-data.h` (spec §6: blob integrity hash at offset 0, then the
generation-context hash, then the metadata table). -/
def EmbeddedBlobHashOffset : Nat := 0

/-- Size of the blob integrity hash field (`EmbeddedBlobHashSize()`). -/
def EmbeddedBlobHashSize : Nat := kSizetSize

/-- Offset of the generation-context (isolate) hash (`IsolateHashOffset()`). -/
def IsolateHashOffset : Nat := EmbeddedBlobHashOffset + EmbeddedBlobHashSize

/-- Size of the generation-context hash field (`IsolateHashSize()`). -/
def IsolateHashSize : Nat := kSizetSize

/-- Offset of the metadata table (`MetadataTableOffset()`). -/
def MetadataTableOffset : Nat := IsolateHashOffset + IsolateHashSize

/-- Size of the metadata table for `n` builtins: one `{offset:u32, length:u32}`
record per builtin (`MetadataTableSize()`, spec §6). -/
def MetadataTableSize (n : Nat) : Nat := 8 * n

/-- Modelled from the spec: the trap byte used by `ZapCode` to fill the code
buffer ("padding the alignment area between two builtins with int3's",
embedded-data.cc:249-251; 0xCC is the x64/ia32 int3 encoding). -/
def kZapByte : Nat := 0xCC

/-- Little-endian bytes of a u32 value (one metadata table field). -/
def u32Bytes (v : Nat) : List Nat :=
  [v % 256, v / 256 % 256, v / 256 ^ 2 % 256, v / 256 ^ 3 % 256]

/-- Little-endian bytes of a machine word (a size_t hash field). -/
def wordBytes (v : Nat) : List Nat :=
  (List.range 8).map fun i => v / 256 ^ i % 256

/-- Read a little-endian u32 at byte offset `off` (out-of-range bytes read 0). -/
def readU32 (bs : List Nat) (off : Nat) : Nat :=
  bs.getD off 0 + bs.getD (off + 1) 0 * 256 + bs.getD (off + 2) 0 * 256 ^ 2 +
    bs.getD (off + 3) 0 * 256 ^ 3

/-- Read a little-endian machine word at byte offset `off`. -/
def readWord (bs : List Nat) (off : Nat) : Nat :=
  ((List.range 8).map fun i => bs.getD (off + i) 0 * 256 ^ i).sum

/-- memcpy(bs + off, vs, vs.length): overwrite `bs` starting at `off` with the
bytes of `vs`.  Always preserves the length of `bs`. -/
def writeBytes (bs : List Nat) (off : Nat) (vs : List Nat) : List Nat :=
  bs.take off ++ vs.take (bs.length - off) ++ bs.drop (off + vs.length)

/-- Apply a list of single-byte writes (index, value) left to right. -/
def applyWrites (ws : List (Nat × Nat)) (bs : List Nat) : List Nat :=
  ws.foldl (fun b w => b.set w.1 w.2) bs

/-- The byte-level writes performed by storing a machine word at `off`. -/
def wordWrites (off v : Nat) : List (Nat × Nat) :=
  (List.range 8).map fun i => (off + i, v / 256 ^ i % 256)

/-- Store a machine word little-endian at byte offset `off`. -/
def writeWord (bs : List Nat) (off v : Nat) : List Nat :=
  applyWrites (wordWrites off v) bs

/-- Machine register id (model of `v8::internal::Register`). -/
abbrev Register := Nat

/-- Builtins::Kind, the kind tag of a code unit (the closed set matched by the
switch in `BuiltinAliasesOffHeapTrampolineRegister`, embedded-data.cc:123-137). -/
inductive Kind where
  | CPP | TFC | TFH | TFJ | TFS | BCH | ASM
deriving DecidableEq

/-- RelocInfo::Mode restricted to what the relocation fixer distinguishes:
the two kinds selected by `kRelocMask` (embedded-data.cc:156-158) and
everything else. -/
inductive RMode where
  | CODE_TARGET | RELATIVE_CODE_TARGET | otherMode
deriving DecidableEq

/-- One relocation record of a code unit: its mode and the byte offset of the
patch slot inside the unit's instruction bytes. -/
structure Reloc where
  rmode : RMode
  offset : Nat
deriving DecidableEq

/-- CallInterfaceDescriptor: the context register and the register parameters
of a builtin's calling convention (embedded-data.cc:141-150). -/
structure Descriptor where
  contextRegister : Register
  registerParams : List Register
deriving DecidableEq

/-- One builtin `Code` object as read by the builder: name, kind tag, the
result of `code.IsIsolateIndependent(isolate)`, raw instruction bytes,
relocation records, and the calling-convention descriptor. -/
structure Code where
  name : String
  kind : Kind
  isolateIndependent : Bool
  bytes : List Nat
  relocs : List Reloc
  descriptor : Descriptor
deriving DecidableEq

/-- The parts of the `Isolate` the builder reads: the builtins list, the
isolate hash (`HashIsolateForEmbeddedBlob`), and target-address resolution
(`Code::GetCodeFromTargetAddress` composed with `builtin_index()`): maps an
on-heap target address to the owning builtin index, if any. -/
structure BuildInput where
  builtins : List Code
  isolateHash : Nat
  resolveTarget : Nat → Option Nat

/-- Build-configuration constants that live outside this translation unit:
the code alignment (`kCodeAlignment`), the reserved code-region header size
(`RawCodeOffset()`, modelled from the spec §6 "reserved header"), the
off-heap-trampoline register id, and whether the target architecture emits
direct code-to-code targets (the `#if` at embedded-data.cc:166-168). -/
structure Config where
  kCodeAlignment : Nat
  kRawCodeOffset : Nat
  kOffHeapTrampolineRegister : Register
  directCodeTargets : Bool

/-- One accumulated safety violation, carrying the offending builtin's name
(the two `fprintf(stderr, ...)` reports at embedded-data.cc:219, 223). -/
inductive Violation where
  | notIsolateIndependent (name : String)
  | aliasesTrampolineRegister (name : String)
deriving DecidableEq

/-- A fatal `CHECK` failure: the accumulated safety violations
(`CHECK_WITH_MSG` at embedded-data.cc:236), a relocation-fixer `CHECK`
(embedded-data.cc:179, 194-195), or a lifecycle `CHECK`
(embedded-data.cc:72, 81, 92, 96, 115, 116). -/
inductive FatalError where
  | builtinViolations (vs : List Violation)
  | relocationFailure
  | checkFailure
deriving DecidableEq

deriving instance DecidableEq for Except

/-- One metadata table record: `{ instructions_offset, instructions_length }`
(`struct Metadata` of embedded-data.h, written at embedded-data.cc:230-231). -/
structure MetadataEntry where
  instructions_offset : Nat
  instructions_length : Nat
deriving DecidableEq

instance : Inhabited MetadataEntry := ⟨⟨0, 0⟩⟩

/-- The embedded blob: the code byte buffer and the metadata byte buffer
(`EmbeddedData`'s `code_`/`code_size_`/`metadata_`/`metadata_size_`; sizes are
the list lengths). -/
structure EmbeddedData where
  code : List Nat
  metadata : List Nat
deriving DecidableEq

/-- The Layout Calculator loop of `EmbeddedData::FromIsolate`
(embedded-data.cc:210-235, layout part): starting from running total `acc`,
each unit records `{instructions_offset := acc, instructions_length := len}`
and the running total advances by `PadAndAlign len`; returns the metadata
records and the final `raw_code_size`. -/
def layoutFrom (align : Nat) (acc : Nat) : List Nat → List MetadataEntry × Nat
  | [] => ([], acc)
  | len :: rest =>
    let p := layoutFrom align (acc + PadAndAlign align len) rest
    (⟨acc, len⟩ :: p.1, p.2)

/-- Layout of a builtin-length sequence starting at running total 0. -/
def layout (align : Nat) (lengths : List Nat) : List MetadataEntry × Nat :=
  layoutFrom align 0 lengths

/-- `BuiltinAliasesOffHeapTrampolineRegister` (embedded-data.cc:121-153):
kinds BCH and ASM never use trampolines and return false immediately; for the
remaining kinds the calling-convention descriptor must not use the off-heap
trampoline register as its context register or any register parameter. -/
def BuiltinAliasesOffHeapTrampolineRegister (treg : Register) (code : Code) :
    Bool :=
  match code.kind with
  | .BCH | .ASM => false
  | _ =>
    decide (code.descriptor.contextRegister = treg) ||
      code.descriptor.registerParams.any fun reg => decide (reg = treg)

/-- The safety violations one builtin contributes in the `FromIsolate` loop
(embedded-data.cc:217-225): first the isolate-independence check, then the
trampoline-register aliasing check, each reported with the builtin's name. -/
def unitViolations (treg : Register) (c : Code) : List Violation :=
  (if ¬c.isolateIndependent then [.notIsolateIndependent c.name] else []) ++
    (if BuiltinAliasesOffHeapTrampolineRegister treg c then
      [.aliasesTrampolineRegister c.name] else [])

/-- All safety violations accumulated across the builtins, in loop order
(`saw_unsafe_builtin` accumulation, embedded-data.cc:209-225). -/
def violationsOf (treg : Register) (bs : List Code) : List Violation :=
  (bs.map (unitViolations treg)).flatten

/-- Serialized metadata table: the `{offset:u32, length:u32}` records in
builtin-index order (the memcpy at embedded-data.cc:261-263). -/
def metadataTableBytes (ms : List MetadataEntry) : List Nat :=
  (ms.map fun m =>
    u32Bytes m.instructions_offset ++ u32Bytes m.instructions_length).flatten

/-- `EmbeddedData::InstructionStartOfBuiltin` (embedded-data.cc:298-306):
`RawCode() + metadata[i].instructions_offset`, with the blob's code buffer
based at address 0, reading the offset from the serialized metadata table. -/
def EmbeddedData.InstructionStartOfBuiltin (cfg : Config) (d : EmbeddedData)
    (i : Nat) : Nat :=
  cfg.kRawCodeOffset + readU32 d.metadata (MetadataTableOffset + 8 * i)

/-- `EmbeddedData::InstructionSizeOfBuiltin` (embedded-data.cc:308-312):
`metadata[i].instructions_length` read from the serialized metadata table. -/
def EmbeddedData.InstructionSizeOfBuiltin (d : EmbeddedData) (i : Nat) : Nat :=
  readU32 d.metadata (MetadataTableOffset + 8 * i + 4)

/-- Modelled from the spec: `EmbeddedData::PaddedInstructionSizeOfBuiltin`
from the missing embedded-data.h, `PadAndAlign(InstructionSizeOfBuiltin(i))`
(spec §4.5: padded length includes the unit's trailing alignment gap). -/
def EmbeddedData.PaddedInstructionSizeOfBuiltin (cfg : Config)
    (d : EmbeddedData) (i : Nat) : Nat :=
  PadAndAlign cfg.kCodeAlignment (d.InstructionSizeOfBuiltin i)

/-- Modelled from the spec: the external `Checksum` primitive over two byte
ranges (spec §6, "checksum(byte_ranges...) -> word"); any deterministic
machine-word-valued function works, a 64-bit polynomial fold is used. -/
def Checksum (payload1 payload2 : List Nat) : Nat :=
  (payload1 ++ payload2).foldl (fun h b => (h * 31 + b) % 2 ^ 64) 0

/-- `EmbeddedData::CreateEmbeddedBlobHash` (embedded-data.cc:327-335): hash
the entire blob except the hash field itself, i.e. the metadata buffer past
`EmbeddedBlobHashSize` plus the whole code buffer. -/
def EmbeddedData.CreateEmbeddedBlobHash (d : EmbeddedData) : Nat :=
  Checksum (d.metadata.drop EmbeddedBlobHashSize) d.code

/-- `EmbeddedData::EmbeddedBlobHash` accessor of the missing embedded-data.h:
read the stored hash word at `EmbeddedBlobHashOffset`. -/
def EmbeddedData.EmbeddedBlobHash (d : EmbeddedData) : Nat :=
  readWord d.metadata EmbeddedBlobHashOffset

/-- SKIP_WRITE_BARRIER / UPDATE_WRITE_BARRIER (the write-barrier mode passed
to `set_target_address`, embedded-data.cc:182-184). -/
inductive WriteBarrierMode where
  | UPDATE_WRITE_BARRIER | SKIP_WRITE_BARRIER
deriving DecidableEq

/-- State threaded through the relocation fixer: the blob being patched plus
a count of writes that requested write-barrier bookkeeping (the tracked-
reference bookkeeping a barriered write would trigger). -/
structure FixState where
  blob : EmbeddedData
  barrierEvents : Nat
deriving DecidableEq

/-- `RelocInfo::set_target_address` on an off-heap slot: store the target
word at the slot and record whether write-barrier bookkeeping was requested
(embedded-data.cc:182-184 always passes SKIP_WRITE_BARRIER). -/
def setTargetAddress (s : FixState) (pc v : Nat) (mode : WriteBarrierMode) :
    FixState :=
  { blob := { s.blob with code := writeWord s.blob.code pc v },
    barrierEvents := s.barrierEvents +
      match mode with
      | .UPDATE_WRITE_BARRIER => 1
      | .SKIP_WRITE_BARRIER => 0 }

/-- Whether a relocation mode passes `kRelocMask`
(CODE_TARGET | RELATIVE_CODE_TARGET, embedded-data.cc:156-158). -/
def kRelocMask (m : RMode) : Bool :=
  match m with
  | .CODE_TARGET => true
  | .RELATIVE_CODE_TARGET => true
  | .otherMode => false

/-- The on-heap relocation iterator `RelocIterator(code, kRelocMask)`
(embedded-data.cc:163): the unit's relocation records filtered by the mask. -/
def onHeapRelocs (code : Code) : List Reloc :=
  code.relocs.filter fun r => kRelocMask r.rmode

/-- The off-heap relocation iterator `RelocIterator(blob, code, kRelocMask)`
(embedded-data.cc:164): the same relocation records of `code`, with each pc
pointing at the blob copy of the unit instead of the on-heap bytes. -/
def offHeapRelocs (_blob : EmbeddedData) (code : Code) : List Reloc :=
  code.relocs.filter fun r => kRelocMask r.rmode

/-- The lockstep fix-up loop body of `FinalizeEmbeddedCodeTargets`
(embedded-data.cc:173-188) for unit `i`: for each filtered record, read the
on-heap target address, resolve it to its owning builtin
(`Code::GetCodeFromTargetAddress`), `CHECK` it is an isolate-independent
builtin, and overwrite the blob copy's slot (at the off-heap pc
`InstructionStartOfBuiltin i + offset`) with
`blob->InstructionStartOfBuiltin(target)`, skipping the write barrier. -/
def fixUnitRelocs (cfg : Config) (iso : BuildInput) (i : Nat) (code : Code) :
    List Reloc → FixState → Except FatalError FixState
  | [], s => .ok s
  | r :: rest, s =>
    match iso.resolveTarget (readWord code.bytes r.offset) with
    | none => .error .relocationFailure
    | some ti =>
      if ti < iso.builtins.length then
        fixUnitRelocs cfg iso i code rest
          (setTargetAddress s (s.blob.InstructionStartOfBuiltin cfg i + r.offset)
            (s.blob.InstructionStartOfBuiltin cfg ti) .SKIP_WRITE_BARRIER)
      else .error .relocationFailure

/-- The per-unit loop of `FinalizeEmbeddedCodeTargets`
(embedded-data.cc:161-197) from unit index `i` on: on architectures with
direct code-to-code targets run the lockstep fix-up; on all others `CHECK`
that both iterators are already done (no filtered records exist). -/
def finalizeUnits (cfg : Config) (iso : BuildInput) :
    Nat → List Code → FixState → Except FatalError FixState
  | _, [], s => .ok s
  | i, code :: rest, s =>
    if cfg.directCodeTargets then
      match fixUnitRelocs cfg iso i code (onHeapRelocs code) s with
      | .error e => .error e
      | .ok s₂ => finalizeUnits cfg iso (i + 1) rest s₂
    else
      if (onHeapRelocs code).isEmpty ∧ (offHeapRelocs s.blob code).isEmpty then
        finalizeUnits cfg iso (i + 1) rest s
      else .error .relocationFailure

/-- `FinalizeEmbeddedCodeTargets` (embedded-data.cc:155-198). -/
def FinalizeEmbeddedCodeTargets (cfg : Config) (iso : BuildInput)
    (blob : EmbeddedData) : Except FatalError FixState :=
  finalizeUnits cfg iso 0 iso.builtins ⟨blob, 0⟩

/-- The per-unit copy loop of `FromIsolate` (embedded-data.cc:266-275):
memcpy each builtin's raw instruction bytes to
`raw_code_start + metadata[i].instructions_offset`. -/
def copyUnits (rawCodeOffset : Nat) :
    List (MetadataEntry × Code) → List Nat → List Nat
  | [], bs => bs
  | (m, c) :: rest, bs =>
    copyUnits rawCodeOffset rest
      (writeBytes bs (rawCodeOffset + m.instructions_offset) c.bytes)

/-- The blob code buffer after zapping and unit copies
(embedded-data.cc:243, 251, 266-275): a `blob_code_size` buffer filled with
the trap byte, then each unit's bytes copied at its computed offset. -/
def buildCodeBuffer (cfg : Config) (ms : List MetadataEntry)
    (builtins : List Code) (rawCodeSize : Nat) : List Nat :=
  copyUnits cfg.kRawCodeOffset (ms.zip builtins)
    (List.replicate (cfg.kRawCodeOffset + rawCodeSize) kZapByte)

/-- The metadata buffer before the blob hash is stored
(embedded-data.cc:247, 253-263): the (still unwritten, modelled as zero) hash
field, then the isolate hash, then the serialized metadata table, each memcpy
landing at its fixed offset. -/
def buildMetadataBuffer (iso : BuildInput) (ms : List MetadataEntry) :
    List Nat :=
  wordBytes 0 ++ wordBytes iso.isolateHash ++ metadataTableBytes ms

/-- The blob as assembled before relocation fix-up (embedded-data.cc:277). -/
def preRelocBlob (cfg : Config) (iso : BuildInput) : EmbeddedData :=
  let p := layout cfg.kCodeAlignment (iso.builtins.map fun c => c.bytes.length)
  ⟨buildCodeBuffer cfg p.1 iso.builtins p.2, buildMetadataBuffer iso p.1⟩

/-- The final build step (embedded-data.cc:282-291): compute the blob hash on
the finished buffers and memcpy it into its fixed field at offset 0. -/
def storeBlobHash (d : EmbeddedData) : EmbeddedData :=
  { d with
    metadata := writeBytes d.metadata EmbeddedBlobHashOffset
      (wordBytes d.CreateEmbeddedBlobHash) }

/-- `EmbeddedData::FromIsolate` (embedded-data.cc:203-296): run the layout
and safety loop, fail fatally with the accumulated violations if any unit is
unsafe (`CHECK_WITH_MSG` at line 236), otherwise assemble the buffers, run
`FinalizeEmbeddedCodeTargets`, and store the blob hash as the last step. -/
def EmbeddedData.FromIsolate (cfg : Config) (iso : BuildInput) :
    Except FatalError EmbeddedData :=
  let vs := violationsOf cfg.kOffHeapTrampolineRegister iso.builtins
  if vs.isEmpty then
    match FinalizeEmbeddedCodeTargets cfg iso (preRelocBlob cfg iso) with
    | .error e => .error e
    | .ok s => .ok (storeBlobHash s.blob)
  else .error (.builtinViolations vs)

/-- The result of `InstructionStream::TryLookupCode`: the `Code()` not-found
sentinel, a found builtin index, or the `UNREACHABLE()` exit
(embedded-data.cc:24-50). -/
inductive LookupResult where
  | notFound
  | found (i : Nat)
  | unreachable
deriving DecidableEq

/-- The binary-search loop of `TryLookupCode` (embedded-data.cc:34-49) over
builtin index space `[l, r)`: compare the address against
`[start_mid, start_mid + padded_size_mid)`; exhausting the range hits
`UNREACHABLE()`.  Each iteration strictly shrinks `r - l`, so a `fuel`
argument instantiated with the initial value of `r - l` (the builtin count)
strictly dominates the iteration count and never changes the loop's result;
when `fuel` runs out, `r - l = 0` holds and the `UNREACHABLE()` branch is
taken exactly as in the unbounded loop. -/
def lookupLoop (cfg : Config) (d : EmbeddedData) (address : Nat) :
    Nat → Nat → Nat → LookupResult
  | 0, _, _ => .unreachable
  | fuel + 1, l, r =>
    if l < r then
      let mid := (l + r) / 2
      let start := d.InstructionStartOfBuiltin cfg mid
      if address < start then lookupLoop cfg d address fuel l mid
      else if start + d.PaddedInstructionSizeOfBuiltin cfg mid ≤ address then
        lookupLoop cfg d address fuel (mid + 1) r
      else .found mid
    else .unreachable

/-- `InstructionStream::TryLookupCode` (embedded-data.cc:24-50) with the blob
code buffer based at address 0: not-found when the pc is not off-heap
(`PcIsOffHeap`, embedded-data.cc:17-21) or lies before builtin 0's start,
binary search otherwise; `count` is `Builtins::builtin_count` (which bounds
the loop's iteration count, see `lookupLoop`). -/
def TryLookupCode (cfg : Config) (d : EmbeddedData) (count : Nat)
    (address : Nat) : LookupResult :=
  if ¬address < d.code.length then .notFound
  else if address < d.InstructionStartOfBuiltin cfg 0 then .notFound
  else lookupLoop cfg d address count 0 count

/-- Page protections requested from the page allocator
(`PageAllocator::Permission`). -/
inductive Protection where
  | kReadWrite | kReadExecute | kRead
deriving DecidableEq

/-- One request issued to the page allocator or heap during the host
lifecycle, in program order. -/
inductive PageEvent where
  | allocatePages (hint size alignment : Nat) (prot : Protection)
  | copyBytes (dest : Nat) (bytes : List Nat)
  | setPermissions (addr size : Nat) (prot : Protection)
  | freePages (addr size : Nat)
  | disposeBuildBuffers
deriving DecidableEq

/-- The environment responses consumed by the host lifecycle: the platform
page size, the two `GetRandomMmapAddr` samples, the two `AllocatePages`
results (`none` models allocation failure), and the outcomes of the two
`SetPermissions` and two `FreePages` calls. -/
structure PageEnv where
  allocatePageSize : Nat
  randomMmapAddr1 : Nat
  randomMmapAddr2 : Nat
  allocatePagesResult1 : Option Nat
  allocatePagesResult2 : Option Nat
  setPermissionsOk1 : Bool
  setPermissionsOk2 : Bool
  freePagesOk1 : Bool
  freePagesOk2 : Bool

/-- `AlignedAddress(addr, alignment)`: round the address down to the
alignment boundary (the hint computation at embedded-data.cc:66-67, 74-75). -/
def AlignedAddress (addr alignment : Nat) : Nat := addr - addr % alignment

/-- The out-parameters of `CreateOffHeapInstructionStream`
(embedded-data.cc:99-102) plus the bytes memcpy'd into each fresh region. -/
structure StreamResult where
  codePtr : Nat
  codeSize : Nat
  codeContents : List Nat
  metadataPtr : Nat
  metadataSize : Nat
  metadataContents : List Nat
deriving DecidableEq

/-- `InstructionStream::CreateOffHeapInstructionStream`
(embedded-data.cc:53-105): build the blob, allocate two page-rounded regions
at randomized aligned hints, copy the blob bytes in, transition the code
region to read+execute and the metadata region to read-only, publish the
pointers with the original unpadded sizes, and dispose the build-time
buffers last.  Every `CHECK` failure is fatal. -/
def CreateOffHeapInstructionStream (cfg : Config) (iso : BuildInput)
    (env : PageEnv) : Except FatalError (StreamResult × List PageEvent) :=
  match EmbeddedData.FromIsolate cfg iso with
  | .error e => .error e
  | .ok d =>
    let alignment := env.allocatePageSize
    let requestedCode := AlignedAddress env.randomMmapAddr1 alignment
    let allocationCodeSize := RoundUp d.code.length alignment
    match env.allocatePagesResult1 with
    | none => .error .checkFailure
    | some allocatedCodeBytes =>
      let requestedMetadata := AlignedAddress env.randomMmapAddr2 alignment
      let allocationMetadataSize := RoundUp d.metadata.length alignment
      match env.allocatePagesResult2 with
      | none => .error .checkFailure
      | some allocatedMetadataBytes =>
        if env.setPermissionsOk1 then
          if env.setPermissionsOk2 then
            .ok (⟨allocatedCodeBytes, d.code.length, d.code,
                  allocatedMetadataBytes, d.metadata.length, d.metadata⟩,
              [.allocatePages requestedCode allocationCodeSize alignment
                  .kReadWrite,
                .allocatePages requestedMetadata allocationMetadataSize
                  alignment .kReadWrite,
                .copyBytes allocatedCodeBytes d.code,
                .setPermissions allocatedCodeBytes allocationCodeSize
                  .kReadExecute,
                .copyBytes allocatedMetadataBytes d.metadata,
                .setPermissions allocatedMetadataBytes allocationMetadataSize
                  .kRead,
                .disposeBuildBuffers])
          else .error .checkFailure
        else .error .checkFailure

/-- `InstructionStream::FreeOffHeapInstructionStream`
(embedded-data.cc:108-117): release both regions, each size rounded up to the
platform page size; a failing `FreePages` is a fatal `CHECK`. -/
def FreeOffHeapInstructionStream (env : PageEnv) (code codeSize : Nat)
    (metadata metadataSize : Nat) : Except FatalError (List PageEvent) :=
  let pageSize := env.allocatePageSize
  if env.freePagesOk1 then
    if env.freePagesOk2 then
      .ok [.freePages code (RoundUp codeSize pageSize),
        .freePages metadata (RoundUp metadataSize pageSize)]
    else .error .checkFailure
  else .error .checkFailure

/-- Resolution of one relocation record's on-heap target:
`Code::GetCodeFromTargetAddress(rinfo->target_address())` followed by the
`IsIsolateIndependentBuiltin` CHECK (embedded-data.cc:178-179); `none` models
a failing CHECK (the target is not a valid builtin). -/
def relocTargetIndex (iso : BuildInput) (code : Code) (r : Reloc) :
    Option Nat :=
  match iso.resolveTarget (readWord code.bytes r.offset) with
  | some ti => if ti < iso.builtins.length then some ti else none
  | none => none

/-- Whether every filtered relocation record of one unit resolves to a valid
builtin target (all CHECKs of the fix-up loop pass for this unit). -/
def unitTargetsOk (iso : BuildInput) (code : Code) : Bool :=
  (onHeapRelocs code).all fun r => (relocTargetIndex iso code r).isSome

/-- Whether every unit's filtered relocation records resolve (all CHECKs of
`FinalizeEmbeddedCodeTargets` pass on a direct-call architecture). -/
def allTargetsOk (iso : BuildInput) : Bool :=
  iso.builtins.all fun c => unitTargetsOk iso c

/-- `InstructionStartOfBuiltin` as a function of the metadata buffer alone
(the fixer's writes depend only on the metadata table, which it never
modifies). -/
def startOfMetadata (cfg : Config) (md : List Nat) (i : Nat) : Nat :=
  cfg.kRawCodeOffset + readU32 md (MetadataTableOffset + 8 * i)

/-- The byte-level writes the fix-up loop performs for the given relocation
records of unit `i`: for each record, store the blob-relative instruction
start of the resolved target at the record's off-heap patch slot. -/
def planRelocs (cfg : Config) (iso : BuildInput) (md : List Nat) (i : Nat)
    (code : Code) (rs : List Reloc) : List (Nat × Nat) :=
  (rs.map fun r =>
    wordWrites (startOfMetadata cfg md i + r.offset)
      (startOfMetadata cfg md ((relocTargetIndex iso code r).getD 0))).flatten

/-- The byte-level writes `FinalizeEmbeddedCodeTargets` performs for the
units `cs` starting at unit index `i`, over the metadata buffer `md`. -/
def buildWritePlan (cfg : Config) (iso : BuildInput) (md : List Nat) :
    Nat → List Code → List (Nat × Nat)
  | _, [] => []
  | i, c :: rest =>
    planRelocs cfg iso md i c (onHeapRelocs c) ++
      buildWritePlan cfg iso md (i + 1) rest

/-- The value of the last write to index `j` in a write list, if any. -/
def lastWriteVal (ws : List (Nat × Nat)) (j : Nat) : Option Nat :=
  ws.foldl (fun acc w => if w.1 = j then some w.2 else acc) none

/-- A build configuration exercising the concrete spec scenario: code
alignment 16, no reserved code-region header, off-heap-trampoline register 5,
a direct-call architecture. -/
def scenarioConfig : Config := ⟨16, 0, 5, true⟩

/-- A plain safe code unit of `n` instruction bytes with no relocations and a
calling convention away from the trampoline register. -/
def plainUnit (nm : String) (n : Nat) : Code :=
  ⟨nm, .TFS, true, List.replicate n 7, [], ⟨1, [2, 3]⟩⟩

/-- The spec scenario input: three code units of lengths 10, 37 and 4. -/
def scenarioInput : BuildInput :=
  ⟨[plainUnit "DU0" 10, plainUnit "DU1" 37, plainUnit "DU2" 4], 99,
    fun _ => none⟩

/-- The blob the builder produces for the spec scenario. -/
def scenarioBlob : EmbeddedData :=
  match EmbeddedData.FromIsolate scenarioConfig scenarioInput with
  | .ok d => d
  | .error _ => ⟨[], []⟩

/-- A bytecode-handler unit that is not isolate-independent (exercises the
safety checks on a kind the aliasing check skips). -/
def bchDependentUnit : Code := ⟨"BCH0", .BCH, false, [], [], ⟨0, []⟩⟩

/-- An input with two violating units: one context-dependent, one whose
calling convention aliases the trampoline register (register 5). -/
def badInput : BuildInput :=
  ⟨[⟨"u0", .CPP, false, [], [], ⟨1, [2]⟩⟩,
    ⟨"u1", .TFJ, true, [], [], ⟨5, [2]⟩⟩], 0, fun _ => none⟩

/-- A unit whose bytes encode one code-target relocation at offset 0, whose
stored target address 1000 resolves to builtin 1. -/
def relocUnit : Code :=
  ⟨"R0", .TFS, true, wordBytes 1000 ++ List.replicate 8 7,
    [⟨.CODE_TARGET, 0⟩], ⟨1, [2]⟩⟩

/-- An input exercising the relocation fixer: unit 0 carries one code-target
record aimed at unit 1. -/
def relocInput : BuildInput :=
  ⟨[relocUnit, plainUnit "R1" 4], 7,
    fun a => if a = 1000 then some 1 else none⟩

/-- A page-allocator environment in which every request succeeds. -/
def envOk : PageEnv :=
  ⟨4096, 123456789, 987654321, some 65536, some 131072, true, true, true,
    true⟩


/-- The fix-point state the relocation fixer produces on `relocInput`
(used to exercise relocation idempotence on a concrete blob). -/
def relocFixedState : FixState :=
  match FinalizeEmbeddedCodeTargets scenarioConfig relocInput
      (preRelocBlob scenarioConfig relocInput) with
  | .ok s => s
  | .error _ => ⟨⟨[], []⟩, 0⟩

/-- The result and event trace of a successful instantiation of the
scenario blob under `envOk`. -/
def streamOutcome : StreamResult × List PageEvent :=
  match CreateOffHeapInstructionStream scenarioConfig scenarioInput envOk with
  | .ok p => p
  | .error _ => (⟨0, 0, [], 0, 0, []⟩, [])

theorem RoundUp_le (x m : Nat) (hm : 0 < m) : x ≤ RoundUp x m := by
  unfold RoundUp
  have h := Nat.div_add_mod' (x + m - 1) m
  have hr : (x + m - 1) % m < m := Nat.mod_lt _ hm
  omega

theorem RoundUp_lt_add (x m : Nat) (hm : 0 < m) : RoundUp x m < x + m := by
  unfold RoundUp
  have h := Nat.div_add_mod' (x + m - 1) m
  omega

theorem RoundUp_dvd (x m : Nat) : m ∣ RoundUp x m := Dvd.intro_left _ rfl

theorem RoundUp_eq_zero (x m : Nat) (hm : 0 < m) (h : RoundUp x m = 0) :
    x = 0 := Nat.le_zero.mp (h ▸ RoundUp_le x m hm)

theorem PadAndAlign_le (a n : Nat) (ha : 0 < a) : n ≤ PadAndAlign a n :=
  RoundUp_le n a ha

theorem PadAndAlign_dvd (a n : Nat) : a ∣ PadAndAlign a n := RoundUp_dvd n a

theorem layoutFrom_fst_length (a acc : Nat) (ls : List Nat) :
    (layoutFrom a acc ls).1.length = ls.length := by
  induction ls generalizing acc with
  | nil => rfl
  | cons len rest ih => simp [layoutFrom, ih]

theorem layoutFrom_snd (a acc : Nat) (ls : List Nat) :
    (layoutFrom a acc ls).2 = acc + (ls.map (PadAndAlign a)).sum := by
  induction ls generalizing acc with
  | nil => simp [layoutFrom]
  | cons len rest ih => simp [layoutFrom, ih]; omega

theorem layoutFrom_get (a acc : Nat) (ls : List Nat) (i : Nat)
    (h : i < ls.length) :
    (layoutFrom a acc ls).1[i]? =
      some ⟨acc + ((ls.take i).map (PadAndAlign a)).sum, ls[i]!⟩ := by
  induction ls generalizing acc i with
  | nil => simp at h
  | cons len rest ih =>
    cases i with
    | zero => simp [layoutFrom]
    | succ j =>
      have hj : j < rest.length := by simpa using h
      simp [layoutFrom, ih (acc + PadAndAlign a len) j hj, List.getElem!_cons_succ]
      omega

theorem u32Bytes_length (v : Nat) : (u32Bytes v).length = 4 := rfl

theorem wordBytes_length (v : Nat) : (wordBytes v).length = 8 := rfl

theorem readU32_u32Bytes (v : Nat) (rest : List Nat) :
    readU32 (u32Bytes v ++ rest) 0 = v % 2 ^ 32 := by
  simp [readU32, u32Bytes, List.getD]
  omega

theorem readWord_wordBytes (v : Nat) (rest : List Nat) :
    readWord (wordBytes v ++ rest) 0 = v % 2 ^ 64 := by
  simp [readWord, wordBytes, List.range_succ, List.getD]
  omega

theorem readU32_append_right (p ts : List Nat) (n : Nat) :
    readU32 (p ++ ts) (p.length + n) = readU32 ts n := by
  have h : ∀ k, (p ++ ts).getD (p.length + n + k) 0 = ts.getD (n + k) 0 := by
    intro k
    rw [List.getD_append_right _ _ _ _ (by omega)]
    congr 1
    omega
  have h0 := h 0
  simp only [Nat.add_zero] at h0
  simp only [readU32]
  rw [h0, h 1, h 2, h 3]

theorem readWord_append_right (p ts : List Nat) (n : Nat) :
    readWord (p ++ ts) (p.length + n) = readWord ts n := by
  have h : ∀ k, (p ++ ts).getD (p.length + n + k) 0 = ts.getD (n + k) 0 := by
    intro k
    rw [List.getD_append_right _ _ _ _ (by omega)]
    congr 1
    omega
  simp only [readWord, List.range_succ, List.map_append, List.map_cons,
    List.map_nil, List.sum_append, List.sum_cons, List.sum_nil, h]

theorem metadataTableBytes_length (ms : List MetadataEntry) :
    (metadataTableBytes ms).length = 8 * ms.length := by
  induction ms with
  | nil => rfl
  | cons m rest ih =>
    simp [metadataTableBytes, u32Bytes] at ih ⊢
    omega

theorem metadataTableBytes_offset (ms : List MetadataEntry) (i : Nat)
    (h : i < ms.length) :
    readU32 (metadataTableBytes ms) (8 * i) =
      ms[i]!.instructions_offset % 2 ^ 32 := by
  induction ms generalizing i with
  | nil => simp at h
  | cons m rest ih =>
    cases i with
    | zero =>
      simpa [metadataTableBytes, List.append_assoc] using
        readU32_u32Bytes m.instructions_offset _
    | succ j =>
      have hj : j < rest.length := by simpa using h
      have hpre : metadataTableBytes (m :: rest) =
          (u32Bytes m.instructions_offset ++ u32Bytes m.instructions_length) ++
            metadataTableBytes rest := by
        simp [metadataTableBytes]
      have hlen :
          (u32Bytes m.instructions_offset ++
            u32Bytes m.instructions_length).length = 8 := rfl
      have h8 : 8 * (j + 1) =
          (u32Bytes m.instructions_offset ++
            u32Bytes m.instructions_length).length + 8 * j := by
        rw [hlen]; omega
      rw [hpre, h8, readU32_append_right, ih j hj,
        List.getElem!_cons_succ]

theorem metadataTableBytes_size (ms : List MetadataEntry) (i : Nat)
    (h : i < ms.length) :
    readU32 (metadataTableBytes ms) (8 * i + 4) =
      ms[i]!.instructions_length % 2 ^ 32 := by
  induction ms generalizing i with
  | nil => simp at h
  | cons m rest ih =>
    cases i with
    | zero =>
      have hpre : metadataTableBytes (m :: rest) =
          u32Bytes m.instructions_offset ++
            (u32Bytes m.instructions_length ++ metadataTableBytes rest) := by
        simp [metadataTableBytes]
      have h4 : 8 * 0 + 4 = (u32Bytes m.instructions_offset).length + 0 := rfl
      rw [hpre, h4, readU32_append_right, readU32_u32Bytes,
        List.getElem!_cons_zero]
    | succ j =>
      have hj : j < rest.length := by simpa using h
      have hpre : metadataTableBytes (m :: rest) =
          (u32Bytes m.instructions_offset ++ u32Bytes m.instructions_length) ++
            metadataTableBytes rest := by
        simp [metadataTableBytes]
      have h8 : 8 * (j + 1) + 4 =
          (u32Bytes m.instructions_offset ++
            u32Bytes m.instructions_length).length + (8 * j + 4) := by
        simp [u32Bytes]
        omega
      rw [hpre, h8, readU32_append_right, ih j hj,
        List.getElem!_cons_succ]

theorem writeBytes_length (bs vs : List Nat) (off : Nat) :
    (writeBytes bs off vs).length = bs.length := by
  simp [writeBytes]
  omega

theorem writeBytes_zero_full (a b vs : List Nat) (h : vs.length = a.length) :
    writeBytes (a ++ b) 0 vs = vs ++ b := by
  unfold writeBytes
  rw [List.take_zero, List.nil_append, Nat.sub_zero, Nat.zero_add,
    List.take_of_length_le (by rw [List.length_append, h]; omega), h,
    List.drop_left]

theorem Checksum_lt (p1 p2 : List Nat) : Checksum p1 p2 < 2 ^ 64 := by
  have key : ∀ (l : List Nat) (h : Nat), h < 2 ^ 64 →
      l.foldl (fun h b => (h * 31 + b) % 2 ^ 64) h < 2 ^ 64 := by
    intro l
    induction l with
    | nil => exact fun _ hh => hh
    | cons b rest ih =>
      intro h hh
      exact ih _ (Nat.mod_lt _ (by norm_num))
  exact key _ 0 (by norm_num)

theorem storeBlobHash_code (d : EmbeddedData) :
    (storeBlobHash d).code = d.code := rfl

theorem storeBlobHash_metadata (d : EmbeddedData) (w rest : List Nat)
    (hm : d.metadata = w ++ rest) (hw : w.length = 8) :
    (storeBlobHash d).metadata =
      wordBytes d.CreateEmbeddedBlobHash ++ rest := by
  have : (wordBytes d.CreateEmbeddedBlobHash).length = w.length := by
    rw [wordBytes_length, hw]
  simp only [storeBlobHash, EmbeddedBlobHashOffset, hm]
  exact writeBytes_zero_full w rest _ this

theorem createHash_storeBlobHash (d : EmbeddedData) (w rest : List Nat)
    (hm : d.metadata = w ++ rest) (hw : w.length = 8) :
    (storeBlobHash d).CreateEmbeddedBlobHash = d.CreateEmbeddedBlobHash := by
  have hdrop : ∀ (u : List Nat), u.length = 8 → (u ++ rest).drop 8 = rest := by
    intro u hu
    rw [← hu, List.drop_left]
  simp only [EmbeddedData.CreateEmbeddedBlobHash, storeBlobHash_code,
    storeBlobHash_metadata d w rest hm hw, hm, EmbeddedBlobHashSize, kSizetSize,
    hdrop _ (wordBytes_length _), hdrop _ hw]

theorem embeddedBlobHash_storeBlobHash (d : EmbeddedData) (w rest : List Nat)
    (hm : d.metadata = w ++ rest) (hw : w.length = 8) :
    (storeBlobHash d).EmbeddedBlobHash = d.CreateEmbeddedBlobHash := by
  simp only [EmbeddedData.EmbeddedBlobHash, EmbeddedBlobHashOffset,
    storeBlobHash_metadata d w rest hm hw, readWord_wordBytes]
  exact Nat.mod_eq_of_lt (Checksum_lt _ _)

theorem applyWrites_length (ws : List (Nat × Nat)) (bs : List Nat) :
    (applyWrites ws bs).length = bs.length := by
  induction ws generalizing bs with
  | nil => rfl
  | cons w rest ih => simp [applyWrites, List.foldl_cons] at ih ⊢; rw [ih]; simp

theorem writeWord_length (bs : List Nat) (off v : Nat) :
    (writeWord bs off v).length = bs.length := applyWrites_length _ _

theorem setTargetAddress_metadata (s : FixState) (pc v : Nat)
    (mode : WriteBarrierMode) :
    (setTargetAddress s pc v mode).blob.metadata = s.blob.metadata := rfl

theorem fixUnitRelocs_ok_metadata (cfg : Config) (iso : BuildInput) (i : Nat)
    (code : Code) : ∀ (rs : List Reloc) (s s' : FixState),
    fixUnitRelocs cfg iso i code rs s = .ok s' →
    s'.blob.metadata = s.blob.metadata := by
  intro rs
  induction rs with
  | nil => intro s s' h; cases h; rfl
  | cons r rest ih =>
    intro s s' h
    simp only [fixUnitRelocs] at h
    split at h
    · cases h
    · split at h
      · rw [ih _ _ h]
        rfl
      · cases h

theorem fixUnitRelocs_ok_codeLength (cfg : Config) (iso : BuildInput) (i : Nat)
    (code : Code) : ∀ (rs : List Reloc) (s s' : FixState),
    fixUnitRelocs cfg iso i code rs s = .ok s' →
    s'.blob.code.length = s.blob.code.length := by
  intro rs
  induction rs with
  | nil => intro s s' h; cases h; rfl
  | cons r rest ih =>
    intro s s' h
    simp only [fixUnitRelocs] at h
    split at h
    · cases h
    · split at h
      · rw [ih _ _ h]
        exact writeWord_length _ _ _
      · cases h

theorem finalizeUnits_ok_metadata (cfg : Config) (iso : BuildInput) :
    ∀ (cs : List Code) (i : Nat) (s s' : FixState),
    finalizeUnits cfg iso i cs s = .ok s' →
    s'.blob.metadata = s.blob.metadata := by
  intro cs
  induction cs with
  | nil => intro i s s' h; cases h; rfl
  | cons c rest ih =>
    intro i s s' h
    simp only [finalizeUnits] at h
    by_cases hd : cfg.directCodeTargets
    · rw [if_pos hd] at h
      cases hfix : fixUnitRelocs cfg iso i c (onHeapRelocs c) s with
      | error e => rw [hfix] at h; cases h
      | ok s₂ =>
        rw [hfix] at h
        rw [ih _ _ _ h, fixUnitRelocs_ok_metadata cfg iso i c _ _ _ hfix]
    · rw [if_neg hd] at h
      by_cases he : (onHeapRelocs c).isEmpty ∧ (offHeapRelocs s.blob c).isEmpty
      · rw [if_pos he] at h
        exact ih _ _ _ h
      · rw [if_neg he] at h; cases h

theorem finalizeUnits_ok_codeLength (cfg : Config) (iso : BuildInput) :
    ∀ (cs : List Code) (i : Nat) (s s' : FixState),
    finalizeUnits cfg iso i cs s = .ok s' →
    s'.blob.code.length = s.blob.code.length := by
  intro cs
  induction cs with
  | nil => intro i s s' h; cases h; rfl
  | cons c rest ih =>
    intro i s s' h
    simp only [finalizeUnits] at h
    by_cases hd : cfg.directCodeTargets
    · rw [if_pos hd] at h
      cases hfix : fixUnitRelocs cfg iso i c (onHeapRelocs c) s with
      | error e => rw [hfix] at h; cases h
      | ok s₂ =>
        rw [hfix] at h
        rw [ih _ _ _ h, fixUnitRelocs_ok_codeLength cfg iso i c _ _ _ hfix]
    · rw [if_neg hd] at h
      by_cases he : (onHeapRelocs c).isEmpty ∧ (offHeapRelocs s.blob c).isEmpty
      · rw [if_pos he] at h
        exact ih _ _ _ h
      · rw [if_neg he] at h; cases h

theorem fromIsolate_ok_iff (cfg : Config) (iso : BuildInput)
    (d : EmbeddedData) :
    EmbeddedData.FromIsolate cfg iso = .ok d ↔
      violationsOf cfg.kOffHeapTrampolineRegister iso.builtins = [] ∧
        ∃ s, FinalizeEmbeddedCodeTargets cfg iso (preRelocBlob cfg iso) =
            .ok s ∧ d = storeBlobHash s.blob := by
  unfold EmbeddedData.FromIsolate
  by_cases hv : violationsOf cfg.kOffHeapTrampolineRegister iso.builtins = []
  · rw [hv]
    cases hfin : FinalizeEmbeddedCodeTargets cfg iso (preRelocBlob cfg iso) with
    | error e => simp
    | ok s =>
      simp only [List.isEmpty_nil, if_true, true_and]
      constructor
      · intro he
        exact ⟨s, rfl, (Except.ok.injEq _ _ ▸ he).symm⟩
      · rintro ⟨s', hs', hd⟩
        cases hs'
        rw [hd]
  · have hne : (violationsOf cfg.kOffHeapTrampolineRegister
        iso.builtins).isEmpty = false := by
      rcases hv' : violationsOf cfg.kOffHeapTrampolineRegister iso.builtins
        with _ | _
      · exact absurd hv' hv
      · rfl
    simp [hne, hv]

theorem copyUnits_length (off : Nat) :
    ∀ (ps : List (MetadataEntry × Code)) (bs : List Nat),
    (copyUnits off ps bs).length = bs.length := by
  intro ps
  induction ps with
  | nil => intro bs; rfl
  | cons p rest ih =>
    intro bs
    rw [copyUnits, ih, writeBytes_length]

theorem preRelocBlob_code_length (cfg : Config) (iso : BuildInput) :
    (preRelocBlob cfg iso).code.length =
      cfg.kRawCodeOffset +
        (layout cfg.kCodeAlignment
          (iso.builtins.map fun c => c.bytes.length)).2 := by
  simp [preRelocBlob, buildCodeBuffer, copyUnits_length]

theorem preRelocBlob_metadata (cfg : Config) (iso : BuildInput) :
    (preRelocBlob cfg iso).metadata =
      wordBytes 0 ++
        (wordBytes iso.isolateHash ++
          metadataTableBytes
            (layout cfg.kCodeAlignment
              (iso.builtins.map fun c => c.bytes.length)).1) := by
  simp [preRelocBlob, buildMetadataBuffer]

theorem fromIsolate_ok_metadata (cfg : Config) (iso : BuildInput)
    (d : EmbeddedData) (h : EmbeddedData.FromIsolate cfg iso = .ok d) :
    ∃ hashWord : Nat,
      d.metadata = wordBytes hashWord ++
        (wordBytes iso.isolateHash ++
          metadataTableBytes
            (layout cfg.kCodeAlignment
              (iso.builtins.map fun c => c.bytes.length)).1) := by
  rcases (fromIsolate_ok_iff cfg iso d).mp h with ⟨-, s, hs, hd⟩
  have hmeta : s.blob.metadata = (preRelocBlob cfg iso).metadata :=
    finalizeUnits_ok_metadata cfg iso _ _ _ _ hs
  rw [preRelocBlob_metadata] at hmeta
  exact ⟨s.blob.CreateEmbeddedBlobHash,
    hd ▸ storeBlobHash_metadata s.blob _ _ hmeta (wordBytes_length 0)⟩

theorem fromIsolate_ok_code_length (cfg : Config) (iso : BuildInput)
    (d : EmbeddedData) (h : EmbeddedData.FromIsolate cfg iso = .ok d) :
    d.code.length =
      cfg.kRawCodeOffset +
        (layout cfg.kCodeAlignment
          (iso.builtins.map fun c => c.bytes.length)).2 := by
  rcases (fromIsolate_ok_iff cfg iso d).mp h with ⟨-, s, hs, hd⟩
  rw [hd, storeBlobHash_code,
    finalizeUnits_ok_codeLength cfg iso _ _ _ _ hs, preRelocBlob_code_length]

theorem layout_get (a : Nat) (ls : List Nat) (i : Nat) (h : i < ls.length) :
    (layout a ls).1[i]! =
      ⟨((ls.take i).map (PadAndAlign a)).sum, ls[i]!⟩ := by
  have hget := layoutFrom_get a 0 ls i h
  have hbang : (layout a ls).1[i]! = ((layout a ls).1[i]?).getD default := rfl
  rw [hbang, layout, hget, Option.getD_some, Nat.zero_add]

theorem layout_offset (a : Nat) (ls : List Nat) (i : Nat) (h : i < ls.length) :
    (layout a ls).1[i]!.instructions_offset =
      ((ls.take i).map (PadAndAlign a)).sum := by
  rw [layout_get a ls i h]

theorem layout_len (a : Nat) (ls : List Nat) (i : Nat) (h : i < ls.length) :
    (layout a ls).1[i]!.instructions_length = ls[i]! := by
  rw [layout_get a ls i h]

theorem layout_length (a : Nat) (ls : List Nat) :
    (layout a ls).1.length = ls.length := layoutFrom_fst_length a 0 ls

theorem layout_total (a : Nat) (ls : List Nat) :
    (layout a ls).2 = (ls.map (PadAndAlign a)).sum := by
  rw [layout, layoutFrom_snd, Nat.zero_add]

theorem take_map_sum_succ (a : Nat) (ls : List Nat) (i : Nat)
    (h : i < ls.length) :
    ((ls.take (i + 1)).map (PadAndAlign a)).sum =
      ((ls.take i).map (PadAndAlign a)).sum + PadAndAlign a ls[i]! := by
  have hbang : ls[i]! = ls[i] := by
    have h1 : ls[i]! = (ls[i]?).getD default := rfl
    rw [h1, List.getElem?_eq_getElem h, Option.getD_some]
  rw [List.map_take, List.map_take,
    List.sum_take_succ _ i (by simpa using h), List.getElem_map,
    ← List.map_take, hbang]

theorem layout_contiguous (a : Nat) (ls : List Nat) (i : Nat)
    (h : i + 1 < ls.length) :
    (layout a ls).1[i + 1]!.instructions_offset =
      (layout a ls).1[i]!.instructions_offset +
        PadAndAlign a (layout a ls).1[i]!.instructions_length := by
  rw [layout_offset a ls (i + 1) h, layout_offset a ls i (by omega),
    layout_len a ls i (by omega), take_map_sum_succ a ls i (by omega)]

theorem take_map_sum_le (a : Nat) (ls : List Nat) (i : Nat) :
    ((ls.take i).map (PadAndAlign a)).sum ≤ (ls.map (PadAndAlign a)).sum := by
  conv_rhs => rw [← List.take_append_drop i ls]
  rw [List.map_append, List.sum_append]
  omega

theorem layout_offset_padded_le (a : Nat) (ls : List Nat) (i : Nat)
    (h : i < ls.length) :
    (layout a ls).1[i]!.instructions_offset +
      PadAndAlign a (layout a ls).1[i]!.instructions_length ≤
        (layout a ls).2 := by
  rw [layout_offset a ls i h, layout_len a ls i h, layout_total,
    ← take_map_sum_succ a ls i h]
  exact take_map_sum_le a ls (i + 1)

theorem layout_offset_dvd (a : Nat) (ls : List Nat) (i : Nat)
    (h : i < ls.length) : a ∣ (layout a ls).1[i]!.instructions_offset := by
  rw [layout_offset a ls i h]
  apply List.dvd_sum
  intro x hx
  rcases List.mem_map.mp hx with ⟨y, -, rfl⟩
  exact PadAndAlign_dvd a y

theorem fromIsolate_ok_start (cfg : Config) (iso : BuildInput)
    (d : EmbeddedData) (h : EmbeddedData.FromIsolate cfg iso = .ok d) (i : Nat)
    (hi : i < iso.builtins.length) :
    d.InstructionStartOfBuiltin cfg i =
      cfg.kRawCodeOffset +
        (layout cfg.kCodeAlignment
          (iso.builtins.map fun c =>
            c.bytes.length)).1[i]!.instructions_offset % 2 ^ 32 := by
  rcases fromIsolate_ok_metadata cfg iso d h with ⟨hw, hmeta⟩
  have hassoc : d.metadata =
      (wordBytes hw ++ wordBytes iso.isolateHash) ++
        metadataTableBytes
          (layout cfg.kCodeAlignment
            (iso.builtins.map fun c => c.bytes.length)).1 := by
    rw [hmeta, List.append_assoc]
  have hplen : (wordBytes hw ++ wordBytes iso.isolateHash).length = 16 := by
    simp [wordBytes_length]
  have hoff : MetadataTableOffset + 8 * i =
      (wordBytes hw ++ wordBytes iso.isolateHash).length + 8 * i := by
    rw [hplen]
    rfl
  have hlt : i < (layout cfg.kCodeAlignment
      (iso.builtins.map fun c => c.bytes.length)).1.length := by
    rw [layout_length, List.length_map]
    exact hi
  rw [EmbeddedData.InstructionStartOfBuiltin, hassoc, hoff,
    readU32_append_right, metadataTableBytes_offset _ _ hlt]

theorem fromIsolate_ok_size (cfg : Config) (iso : BuildInput)
    (d : EmbeddedData) (h : EmbeddedData.FromIsolate cfg iso = .ok d) (i : Nat)
    (hi : i < iso.builtins.length) :
    d.InstructionSizeOfBuiltin i =
      (layout cfg.kCodeAlignment
        (iso.builtins.map fun c =>
          c.bytes.length)).1[i]!.instructions_length % 2 ^ 32 := by
  rcases fromIsolate_ok_metadata cfg iso d h with ⟨hw, hmeta⟩
  have hassoc : d.metadata =
      (wordBytes hw ++ wordBytes iso.isolateHash) ++
        metadataTableBytes
          (layout cfg.kCodeAlignment
            (iso.builtins.map fun c => c.bytes.length)).1 := by
    rw [hmeta, List.append_assoc]
  have hplen : (wordBytes hw ++ wordBytes iso.isolateHash).length = 16 := by
    simp [wordBytes_length]
  have hoff : MetadataTableOffset + 8 * i + 4 =
      (wordBytes hw ++ wordBytes iso.isolateHash).length + (8 * i + 4) := by
    rw [hplen]
    simp [MetadataTableOffset, IsolateHashOffset, EmbeddedBlobHashOffset,
      EmbeddedBlobHashSize, IsolateHashSize, kSizetSize]
    omega
  have hlt : i < (layout cfg.kCodeAlignment
      (iso.builtins.map fun c => c.bytes.length)).1.length := by
    rw [layout_length, List.length_map]
    exact hi
  rw [EmbeddedData.InstructionSizeOfBuiltin, hassoc, hoff,
    readU32_append_right, metadataTableBytes_size _ _ hlt]

theorem lastWriteVal_foldl (j : Nat) (ws : List (Nat × Nat)) :
    ∀ acc : Option Nat,
    ws.foldl (fun acc w => if w.1 = j then some w.2 else acc) acc =
      match lastWriteVal ws j with
      | some v => some v
      | none => acc := by
  induction ws with
  | nil => intro acc; rfl
  | cons w rest ih =>
    intro acc
    have hl : lastWriteVal (w :: rest) j =
        match lastWriteVal rest j with
        | some v => some v
        | none => if w.1 = j then some w.2 else none := by
      rw [lastWriteVal, List.foldl_cons, ih]
    rw [List.foldl_cons, ih, hl]
    cases lastWriteVal rest j with
    | some v => rfl
    | none => by_cases hw : w.1 = j <;> simp [hw]

theorem lastWriteVal_cons (j : Nat) (w : Nat × Nat) (ws : List (Nat × Nat)) :
    lastWriteVal (w :: ws) j =
      match lastWriteVal ws j with
      | some v => some v
      | none => if w.1 = j then some w.2 else none := by
  rw [lastWriteVal, List.foldl_cons, lastWriteVal_foldl]

theorem lastWriteVal_append (j : Nat) (xs ys : List (Nat × Nat)) :
    lastWriteVal (xs ++ ys) j =
      match lastWriteVal ys j with
      | some v => some v
      | none => lastWriteVal xs j := by
  rw [lastWriteVal, List.foldl_append, lastWriteVal_foldl]
  cases hv : lastWriteVal ys j <;> simp [hv, lastWriteVal]

theorem applyWrites_cons (w : Nat × Nat) (ws : List (Nat × Nat))
    (bs : List Nat) :
    applyWrites (w :: ws) bs = applyWrites ws (bs.set w.1 w.2) := rfl

theorem applyWrites_append (xs ys : List (Nat × Nat)) (bs : List Nat) :
    applyWrites (xs ++ ys) bs = applyWrites ys (applyWrites xs bs) :=
  List.foldl_append _ _ _ _

theorem applyWrites_getElem? (ws : List (Nat × Nat)) (bs : List Nat)
    (j : Nat) :
    (applyWrites ws bs)[j]? =
      match lastWriteVal ws j with
      | some v => if j < bs.length then some v else none
      | none => bs[j]? := by
  induction ws generalizing bs with
  | nil => rfl
  | cons w rest ih =>
    rw [applyWrites_cons, ih, lastWriteVal_cons]
    cases lastWriteVal rest j with
    | some v => rw [List.length_set]
    | none =>
      rw [List.getElem?_set]
      by_cases hw : w.1 = j <;> simp [hw]

theorem applyWrites_idem (ws : List (Nat × Nat)) (bs : List Nat) :
    applyWrites ws (applyWrites ws bs) = applyWrites ws bs := by
  apply List.ext_getElem?
  intro j
  rw [applyWrites_getElem?]
  cases h : lastWriteVal ws j with
  | some v =>
    rw [applyWrites_getElem?, h, applyWrites_length]
  | none =>
    rw [applyWrites_getElem?, h]

theorem planRelocs_cons (cfg : Config) (iso : BuildInput) (md : List Nat)
    (i : Nat) (code : Code) (r : Reloc) (rest : List Reloc) :
    planRelocs cfg iso md i code (r :: rest) =
      wordWrites (startOfMetadata cfg md i + r.offset)
          (startOfMetadata cfg md ((relocTargetIndex iso code r).getD 0)) ++
        planRelocs cfg iso md i code rest := by
  simp [planRelocs]

theorem fixUnitRelocs_eq (cfg : Config) (iso : BuildInput) (i : Nat)
    (code : Code) : ∀ (rs : List Reloc) (s : FixState),
    fixUnitRelocs cfg iso i code rs s =
      if rs.all (fun r => (relocTargetIndex iso code r).isSome) then
        .ok ⟨⟨applyWrites (planRelocs cfg iso s.blob.metadata i code rs)
            s.blob.code, s.blob.metadata⟩, s.barrierEvents⟩
      else .error .relocationFailure := by
  intro rs
  induction rs with
  | nil =>
    intro s
    simp [fixUnitRelocs, planRelocs, applyWrites]
  | cons r rest ih =>
    intro s
    cases hres : iso.resolveTarget (readWord code.bytes r.offset) with
    | none =>
      have hidx : relocTargetIndex iso code r = none := by
        rw [relocTargetIndex, hres]
      simp only [fixUnitRelocs, hres, List.all_cons, hidx,
        Option.isSome_none, Bool.false_and, Bool.false_eq_true, if_false]
    | some ti =>
      by_cases hlt : ti < iso.builtins.length
      · have hidx : relocTargetIndex iso code r = some ti := by
          simp [relocTargetIndex, hres, hlt]
        simp only [fixUnitRelocs, hres, if_pos hlt]
        rw [ih]
        simp only [List.all_cons, hidx, Option.isSome_some, Bool.true_and]
        by_cases hall :
          rest.all (fun r => (relocTargetIndex iso code r).isSome) = true
        · rw [if_pos hall, if_pos hall]
          rw [planRelocs_cons, applyWrites_append, hidx]
          rfl
        · rw [if_neg hall, if_neg hall]
      · have hidx : relocTargetIndex iso code r = none := by
          simp [relocTargetIndex, hres, hlt]
        simp only [fixUnitRelocs, hres, if_neg hlt, List.all_cons, hidx,
          Option.isSome_none, Bool.false_and, Bool.false_eq_true, if_false]

theorem finalizeUnits_eq_direct (cfg : Config) (iso : BuildInput)
    (hd : cfg.directCodeTargets = true) : ∀ (cs : List Code) (i : Nat)
    (s : FixState),
    finalizeUnits cfg iso i cs s =
      if cs.all (fun c => unitTargetsOk iso c) then
        .ok ⟨⟨applyWrites (buildWritePlan cfg iso s.blob.metadata i cs)
            s.blob.code, s.blob.metadata⟩, s.barrierEvents⟩
      else .error .relocationFailure := by
  intro cs
  induction cs with
  | nil =>
    intro i s
    simp [finalizeUnits, buildWritePlan, applyWrites]
  | cons c rest ih =>
    intro i s
    by_cases hu : unitTargetsOk iso c = true
    · rw [finalizeUnits, if_pos hd, fixUnitRelocs_eq, ← unitTargetsOk,
        if_pos hu]
      show finalizeUnits cfg iso (i + 1) rest
        ⟨⟨applyWrites
            (planRelocs cfg iso s.blob.metadata i c (onHeapRelocs c))
            s.blob.code, s.blob.metadata⟩, s.barrierEvents⟩ = _
      rw [ih]
      simp only [List.all_cons, hu, Bool.true_and]
      by_cases hall : rest.all (fun c => unitTargetsOk iso c) = true
      · rw [if_pos hall, if_pos hall, buildWritePlan, applyWrites_append]
      · rw [if_neg hall, if_neg hall]
    · rw [finalizeUnits, if_pos hd, fixUnitRelocs_eq, ← unitTargetsOk,
        if_neg hu]
      simp only [List.all_cons, hu, Bool.false_eq_true, Bool.false_and,
        if_false]

theorem finalize_eq_direct (cfg : Config) (iso : BuildInput)
    (blob : EmbeddedData) (hd : cfg.directCodeTargets = true) :
    FinalizeEmbeddedCodeTargets cfg iso blob =
      if allTargetsOk iso then
        .ok ⟨⟨applyWrites (buildWritePlan cfg iso blob.metadata 0 iso.builtins)
            blob.code, blob.metadata⟩, 0⟩
      else .error .relocationFailure := by
  rw [FinalizeEmbeddedCodeTargets, finalizeUnits_eq_direct cfg iso hd,
    allTargetsOk]

theorem finalizeUnits_eq_indirect (cfg : Config) (iso : BuildInput)
    (hd : cfg.directCodeTargets = false) : ∀ (cs : List Code) (i : Nat)
    (s : FixState),
    finalizeUnits cfg iso i cs s =
      if cs.all (fun c => (onHeapRelocs c).isEmpty) then .ok s
      else .error .relocationFailure := by
  intro cs
  induction cs with
  | nil => intro i s; simp [finalizeUnits]
  | cons c rest ih =>
    intro i s
    rw [finalizeUnits, if_neg (by rw [hd]; exact Bool.false_ne_true)]
    by_cases he : (onHeapRelocs c).isEmpty = true
    · have hoff : (offHeapRelocs s.blob c).isEmpty = true := he
      rw [if_pos ⟨he, hoff⟩, ih]
      simp only [List.all_cons, he, Bool.true_and]
    · rw [if_neg (by intro hcon; exact he hcon.1)]
      simp only [List.all_cons, he, Bool.false_eq_true, Bool.false_and,
        if_false]

theorem finalize_eq_indirect (cfg : Config) (iso : BuildInput)
    (blob : EmbeddedData) (hd : cfg.directCodeTargets = false) :
    FinalizeEmbeddedCodeTargets cfg iso blob =
      if iso.builtins.all (fun c => (onHeapRelocs c).isEmpty) then
        .ok ⟨blob, 0⟩
      else .error .relocationFailure := by
  rw [FinalizeEmbeddedCodeTargets, finalizeUnits_eq_indirect cfg iso hd]

theorem lookupLoop_found (cfg : Config) (d : EmbeddedData) (count : Nat)
    (hcont : ∀ i, i + 1 < count →
      d.InstructionStartOfBuiltin cfg (i + 1) =
        d.InstructionStartOfBuiltin cfg i +
          d.PaddedInstructionSizeOfBuiltin cfg i)
    (address : Nat) :
    ∀ (fuel l r : Nat), l < r → r ≤ count → r - l ≤ fuel →
    d.InstructionStartOfBuiltin cfg l ≤ address →
    address < d.InstructionStartOfBuiltin cfg (r - 1) +
      d.PaddedInstructionSizeOfBuiltin cfg (r - 1) →
    ∃ i, lookupLoop cfg d address fuel l r = .found i ∧
      l ≤ i ∧ i < r ∧
      d.InstructionStartOfBuiltin cfg i ≤ address ∧
      address < d.InstructionStartOfBuiltin cfg i +
        d.PaddedInstructionSizeOfBuiltin cfg i := by
  intro fuel
  induction fuel with
  | zero =>
    intro l r hlr hrc hfuel
    omega
  | succ fuel ih =>
    intro l r hlr hrc hfuel hlo hhi
    simp only [lookupLoop, if_pos hlr]
    have hmidlt : (l + r) / 2 < r := by omega
    have hmidge : l ≤ (l + r) / 2 := by omega
    by_cases h1 : address < d.InstructionStartOfBuiltin cfg ((l + r) / 2)
    · rw [if_pos h1]
      have hlm : l < (l + r) / 2 := by
        rcases Nat.eq_or_lt_of_le hmidge with heq | h
        · exfalso
          rw [← heq] at h1
          omega
        · exact h
      have hE : d.InstructionStartOfBuiltin cfg ((l + r) / 2) =
          d.InstructionStartOfBuiltin cfg ((l + r) / 2 - 1) +
            d.PaddedInstructionSizeOfBuiltin cfg ((l + r) / 2 - 1) := by
        have hc := hcont ((l + r) / 2 - 1) (by omega)
        have : (l + r) / 2 - 1 + 1 = (l + r) / 2 := by omega
        rw [this] at hc
        exact hc
      rcases ih l ((l + r) / 2) hlm (by omega) (by omega) hlo
          (by rw [← hE]; exact h1) with ⟨i, hfound, hli, hir, hsi, hei⟩
      exact ⟨i, hfound, hli, by omega, hsi, hei⟩
    · rw [if_neg h1]
      by_cases h2 : d.InstructionStartOfBuiltin cfg ((l + r) / 2) +
          d.PaddedInstructionSizeOfBuiltin cfg ((l + r) / 2) ≤ address
      · rw [if_pos h2]
        have hmr : (l + r) / 2 + 1 < r := by
          rcases Nat.lt_or_ge ((l + r) / 2 + 1) r with h | h
          · exact h
          · exfalso
            have : r - 1 = (l + r) / 2 := by omega
            rw [this] at hhi
            omega
        have hS : d.InstructionStartOfBuiltin cfg ((l + r) / 2 + 1) =
            d.InstructionStartOfBuiltin cfg ((l + r) / 2) +
              d.PaddedInstructionSizeOfBuiltin cfg ((l + r) / 2) :=
          hcont _ (by omega)
        rcases ih ((l + r) / 2 + 1) r hmr hrc (by omega)
            (by rw [hS]; exact h2) hhi with ⟨i, hfound, hli, hir, hsi, hei⟩
        exact ⟨i, hfound, by omega, hir, hsi, hei⟩
      · rw [if_neg h2]
        exact ⟨(l + r) / 2, rfl, hmidge, hmidlt, Nat.le_of_not_lt h1,
          Nat.lt_of_not_le h2⟩

theorem start_le_start (cfg : Config) (d : EmbeddedData) (count : Nat)
    (hcont : ∀ i, i + 1 < count →
      d.InstructionStartOfBuiltin cfg (i + 1) =
        d.InstructionStartOfBuiltin cfg i +
          d.PaddedInstructionSizeOfBuiltin cfg i) :
    ∀ (k i : Nat), i + k < count →
    d.InstructionStartOfBuiltin cfg i ≤
      d.InstructionStartOfBuiltin cfg (i + k) := by
  intro k
  induction k with
  | zero => intro i _; exact Nat.le_refl _
  | succ k ih =>
    intro i hk
    have h1 : d.InstructionStartOfBuiltin cfg (i + k) ≤
        d.InstructionStartOfBuiltin cfg (i + k + 1) := by
      rw [hcont (i + k) (by omega)]
      omega
    have h2 := ih i (by omega)
    have : i + (k + 1) = i + k + 1 := by omega
    rw [this]
    omega

theorem end_le_start (cfg : Config) (d : EmbeddedData) (count : Nat)
    (hcont : ∀ i, i + 1 < count →
      d.InstructionStartOfBuiltin cfg (i + 1) =
        d.InstructionStartOfBuiltin cfg i +
          d.PaddedInstructionSizeOfBuiltin cfg i)
    (i j : Nat) (hij : i < j) (hj : j < count) :
    d.InstructionStartOfBuiltin cfg i +
      d.PaddedInstructionSizeOfBuiltin cfg i ≤
        d.InstructionStartOfBuiltin cfg j := by
  have h1 : d.InstructionStartOfBuiltin cfg (i + 1) =
      d.InstructionStartOfBuiltin cfg i +
        d.PaddedInstructionSizeOfBuiltin cfg i :=
    hcont i (by omega)
  have h2 : d.InstructionStartOfBuiltin cfg (i + 1) ≤
      d.InstructionStartOfBuiltin cfg j := by
    have := start_le_start cfg d count hcont (j - (i + 1)) (i + 1) (by omega)
    have hj' : i + 1 + (j - (i + 1)) = j := by omega
    rw [hj'] at this
    exact this
  omega

theorem lookup_unique (cfg : Config) (d : EmbeddedData) (count : Nat)
    (hcont : ∀ i, i + 1 < count →
      d.InstructionStartOfBuiltin cfg (i + 1) =
        d.InstructionStartOfBuiltin cfg i +
          d.PaddedInstructionSizeOfBuiltin cfg i)
    (address i j : Nat) (hi : i < count) (hj : j < count)
    (hsi : d.InstructionStartOfBuiltin cfg i ≤ address)
    (hei : address < d.InstructionStartOfBuiltin cfg i +
      d.PaddedInstructionSizeOfBuiltin cfg i)
    (hsj : d.InstructionStartOfBuiltin cfg j ≤ address)
    (hej : address < d.InstructionStartOfBuiltin cfg j +
      d.PaddedInstructionSizeOfBuiltin cfg j) : i = j := by
  rcases Nat.lt_trichotomy i j with h | h | h
  · have := end_le_start cfg d count hcont i j h hj
    omega
  · exact h
  · have := end_le_start cfg d count hcont j i h hi
    omega

theorem mem_violations_indep (treg : Register) (bs : List Code) (c : Code)
    (hc : c ∈ bs) (hind : c.isolateIndependent = false) :
    Violation.notIsolateIndependent c.name ∈ violationsOf treg bs := by
  rw [violationsOf]
  apply List.mem_flatten.mpr
  refine ⟨unitViolations treg c, List.mem_map_of_mem _ hc, ?_⟩
  rw [unitViolations, hind]
  simp

theorem mem_violations_alias (treg : Register) (bs : List Code) (c : Code)
    (hc : c ∈ bs)
    (hal : BuiltinAliasesOffHeapTrampolineRegister treg c = true) :
    Violation.aliasesTrampolineRegister c.name ∈ violationsOf treg bs := by
  rw [violationsOf]
  apply List.mem_flatten.mpr
  refine ⟨unitViolations treg c, List.mem_map_of_mem _ hc, ?_⟩
  rw [unitViolations, hal]
  simp

theorem fromIsolate_error_of_violations (cfg : Config) (iso : BuildInput)
    (h : violationsOf cfg.kOffHeapTrampolineRegister iso.builtins ≠ []) :
    EmbeddedData.FromIsolate cfg iso =
      .error (.builtinViolations
        (violationsOf cfg.kOffHeapTrampolineRegister iso.builtins)) := by
  have hne : (violationsOf cfg.kOffHeapTrampolineRegister
      iso.builtins).isEmpty = false := by
    rcases hv : violationsOf cfg.kOffHeapTrampolineRegister iso.builtins
      with _ | _
    · exact absurd hv h
    · rfl
  unfold EmbeddedData.FromIsolate
  simp [hne]

/-- C1: if any code unit fails the safety checks — it is not
isolate-independent, or its calling-convention descriptor uses the off-heap
trampoline register — then `EmbeddedData::FromIsolate` fails fatally with the
full accumulated violation list and never returns a blob; every violating
check of every unit appears in that list together with the offending unit's
name, so violations are accumulated across all units rather than aborting at
the first one. -/
theorem C1_safety_gate (cfg : Config) (iso : BuildInput)
    (h : ∃ c ∈ iso.builtins, c.isolateIndependent = false ∨
      BuiltinAliasesOffHeapTrampolineRegister cfg.kOffHeapTrampolineRegister
        c = true) :
    EmbeddedData.FromIsolate cfg iso =
      .error (.builtinViolations
        (violationsOf cfg.kOffHeapTrampolineRegister iso.builtins)) ∧
    (∀ c ∈ iso.builtins, c.isolateIndependent = false →
      Violation.notIsolateIndependent c.name ∈
        violationsOf cfg.kOffHeapTrampolineRegister iso.builtins) ∧
    (∀ c ∈ iso.builtins,
      BuiltinAliasesOffHeapTrampolineRegister cfg.kOffHeapTrampolineRegister
        c = true →
      Violation.aliasesTrampolineRegister c.name ∈
        violationsOf cfg.kOffHeapTrampolineRegister iso.builtins) := by
  refine ⟨?_, fun c hc hind => mem_violations_indep _ _ c hc hind,
    fun c hc hal => mem_violations_alias _ _ c hc hal⟩
  apply fromIsolate_error_of_violations
  rcases h with ⟨c, hc, hbad | hbad⟩
  · exact List.ne_nil_of_mem (mem_violations_indep _ _ c hc hbad)
  · exact List.ne_nil_of_mem (mem_violations_alias _ _ c hc hbad)

theorem C1_safety_gate_witness :
    EmbeddedData.FromIsolate scenarioConfig badInput =
      .error (.builtinViolations
        (violationsOf scenarioConfig.kOffHeapTrampolineRegister
          badInput.builtins)) ∧
    Violation.notIsolateIndependent "u0" ∈
      violationsOf scenarioConfig.kOffHeapTrampolineRegister
        badInput.builtins ∧
    Violation.aliasesTrampolineRegister "u1" ∈
      violationsOf scenarioConfig.kOffHeapTrampolineRegister
        badInput.builtins :=
  ⟨(C1_safety_gate scenarioConfig badInput (by decide)).1,
    (C1_safety_gate scenarioConfig badInput (by decide)).2.1
      ⟨"u0", .CPP, false, [], [], ⟨1, [2]⟩⟩ (by decide) rfl,
    (C1_safety_gate scenarioConfig badInput (by decide)).2.2
      ⟨"u1", .TFJ, true, [], [], ⟨5, [2]⟩⟩ (by decide) (by decide)⟩

/-- C2 counterexample: a bytecode-handler (BCH) unit that is not
isolate-independent does contribute a violation — the context-dependence
check of the safety loop is not skipped for BCH/ASM kinds, so the claim that
neither safety check contributes a violation for such units is false. -/
theorem C2_counterexample :
    bchDependentUnit.kind = Kind.BCH ∧
    Violation.notIsolateIndependent bchDependentUnit.name ∈
      violationsOf 5 [bchDependentUnit] ∧
    EmbeddedData.FromIsolate scenarioConfig
        ⟨[bchDependentUnit], 0, fun _ => none⟩ =
      .error (.builtinViolations
        [.notIsolateIndependent bchDependentUnit.name]) := by
  refine ⟨rfl, by decide, ?_⟩
  have h := fromIsolate_error_of_violations scenarioConfig
    ⟨[bchDependentUnit], 0, fun _ => none⟩ (by decide)
  rw [h]
  rfl

/-- C2 (amended): a unit whose kind tag never uses code-to-code calls (BCH or
ASM) is skipped by the trampoline-register aliasing check —
`BuiltinAliasesOffHeapTrampolineRegister` returns false for it regardless of
its calling convention, so the only violation it can contribute is the
context-dependence one; the context-dependence check still applies to it. -/
theorem C2_kind_skip (treg : Register) (c : Code)
    (h : c.kind = Kind.BCH ∨ c.kind = Kind.ASM) :
    BuiltinAliasesOffHeapTrampolineRegister treg c = false ∧
    unitViolations treg c =
      (if ¬c.isolateIndependent then
        [Violation.notIsolateIndependent c.name] else []) := by
  have hal : BuiltinAliasesOffHeapTrampolineRegister treg c = false := by
    rcases h with h | h <;>
      simp [BuiltinAliasesOffHeapTrampolineRegister, h]
  refine ⟨hal, ?_⟩
  rw [unitViolations, hal]
  simp

theorem C2_kind_skip_witness :
    (bchDependentUnit.kind = Kind.BCH ∨ bchDependentUnit.kind = Kind.ASM) ∧
    (BuiltinAliasesOffHeapTrampolineRegister 5 bchDependentUnit = false ∧
      unitViolations 5 bchDependentUnit =
        (if ¬bchDependentUnit.isolateIndependent then
          [Violation.notIsolateIndependent bchDependentUnit.name] else [])) :=
  ⟨Or.inl rfl, C2_kind_skip 5 bchDependentUnit (Or.inl rfl)⟩

/-- C3 counterexample: for lengths 10, 37, 4 and alignment 16 the Layout
Calculator produces offsets 0, 16, 64 and padded total 80 — not the offsets
0, 16, 48 and total 64 the claim states (the claimed numbers are even
self-inconsistent: unit 1 would span [16, 53), overlapping an offset of 48
for unit 2). -/
theorem C3_counterexample :
    (layout 16 [10, 37, 4]).1.map (fun m => m.instructions_offset) =
        [0, 16, 64] ∧
    (layout 16 [10, 37, 4]).2 = 80 ∧
    ¬((layout 16 [10, 37, 4]).1.map (fun m => m.instructions_offset) =
        [0, 16, 48] ∧ (layout 16 [10, 37, 4]).2 = 64) := by
  decide

/-- C3 (amended): the Layout Calculator is a pure function of the ordered
length sequence and the alignment constant (determinism is immediate), it
emits one entry per unit preserving each unit's length,
`offset[i] + length[i] <= offset[i+1]` holds for all i, every offset is a
multiple of the alignment, the total raw code size bounds every unit's
padded extent (so it includes the trailing padding of the last unit, being
the sum of all padded lengths), and for lengths 10, 37, 4 with alignment 16
the offsets are 0, 16, 64 with padded total 80. -/
theorem C3_layout (align : Nat) (lengths : List Nat) (ha : 0 < align) :
    (layout align lengths).1.length = lengths.length ∧
    (∀ i, i < lengths.length →
      (layout align lengths).1[i]!.instructions_length = lengths[i]!) ∧
    (∀ i, i + 1 < lengths.length →
      (layout align lengths).1[i]!.instructions_offset +
        (layout align lengths).1[i]!.instructions_length ≤
        (layout align lengths).1[i + 1]!.instructions_offset) ∧
    (∀ i, i < lengths.length →
      align ∣ (layout align lengths).1[i]!.instructions_offset) ∧
    ((layout align lengths).2 =
      (lengths.map (PadAndAlign align)).sum) ∧
    (∀ i, i < lengths.length →
      (layout align lengths).1[i]!.instructions_offset +
        PadAndAlign align (layout align lengths).1[i]!.instructions_length ≤
        (layout align lengths).2) ∧
    layout 16 [10, 37, 4] = ([⟨0, 10⟩, ⟨16, 37⟩, ⟨64, 4⟩], 80) := by
  refine ⟨layout_length align lengths,
    fun i hi => layout_len align lengths i hi, ?_,
    fun i hi => layout_offset_dvd align lengths i hi,
    layout_total align lengths,
    fun i hi => layout_offset_padded_le align lengths i hi, by decide⟩
  intro i hi
  have hc := layout_contiguous align lengths i hi
  have hle := PadAndAlign_le align
    (layout align lengths).1[i]!.instructions_length ha
  omega

theorem C3_layout_witness :
    0 < 16 ∧
    layout 16 [10, 37, 4] = ([⟨0, 10⟩, ⟨16, 37⟩, ⟨64, 4⟩], 80) :=
  ⟨by norm_num, (C3_layout 16 [10, 37, 4] (by norm_num)).2.2.2.2.2.2⟩

/-- C4 counterexample: in the 10/37/4, alignment-16 scenario the code's
layout places unit 1 at offsets [16, 64) (padded), so address 48 lies inside
unit 1 — `TryLookupCode` resolves it to unit 1, not to unit 2 as the claim
states. -/
theorem C4_counterexample :
    TryLookupCode scenarioConfig scenarioBlob 3 48 = .found 1 ∧
    LookupResult.found 1 ≠ LookupResult.found 2 := by
  decide

/-- C4 (amended): the Address Resolver returns not-found for every address
outside `[instruction_start_of(0), code_region_end)`; for every in-range
address the binary search returns exactly one unit index `i` with
`start_i <= a < start_i + padded_size_i` (in particular it never hits the
`UNREACHABLE()` exit); any address in `[start_i, start_i + padded_size_i)` —
including the trailing padding gap of unit `i` — resolves to unit `i`, never
to unit `i+1`; and in the 10/37/4, alignment-16 scenario address 40 resolves
to unit 1, address 48 (inside unit 1's instructions) resolves to unit 1, and
address 64 resolves to unit 2.  The hypotheses are the layout invariants the
builder establishes: consecutive instruction starts differ by exactly the
padded size, and the last padded unit ends at the code region's end. -/
theorem C4_resolver (cfg : Config) (d : EmbeddedData) (count : Nat)
    (hcount : 0 < count)
    (hcont : ∀ i < count, i + 1 < count →
      d.InstructionStartOfBuiltin cfg (i + 1) =
        d.InstructionStartOfBuiltin cfg i +
          d.PaddedInstructionSizeOfBuiltin cfg i)
    (hend : d.InstructionStartOfBuiltin cfg (count - 1) +
      d.PaddedInstructionSizeOfBuiltin cfg (count - 1) = d.code.length) :
    (∀ a, a < d.InstructionStartOfBuiltin cfg 0 ∨ d.code.length ≤ a →
      TryLookupCode cfg d count a = .notFound) ∧
    (∀ a, d.InstructionStartOfBuiltin cfg 0 ≤ a → a < d.code.length →
      ∃ i, TryLookupCode cfg d count a = .found i ∧ i < count ∧
        d.InstructionStartOfBuiltin cfg i ≤ a ∧
        a < d.InstructionStartOfBuiltin cfg i +
          d.PaddedInstructionSizeOfBuiltin cfg i ∧
        ∀ j, j < count → d.InstructionStartOfBuiltin cfg j ≤ a →
          a < d.InstructionStartOfBuiltin cfg j +
            d.PaddedInstructionSizeOfBuiltin cfg j → j = i) ∧
    (∀ i, i < count → ∀ a, d.InstructionStartOfBuiltin cfg i ≤ a →
      a < d.InstructionStartOfBuiltin cfg i +
        d.PaddedInstructionSizeOfBuiltin cfg i →
      TryLookupCode cfg d count a = .found i) ∧
    TryLookupCode scenarioConfig scenarioBlob 3 40 = .found 1 ∧
    TryLookupCode scenarioConfig scenarioBlob 3 48 = .found 1 ∧
    TryLookupCode scenarioConfig scenarioBlob 3 64 = .found 2 := by
  have hcont' : ∀ i, i + 1 < count →
      d.InstructionStartOfBuiltin cfg (i + 1) =
        d.InstructionStartOfBuiltin cfg i +
          d.PaddedInstructionSizeOfBuiltin cfg i :=
    fun i hi => hcont i (by omega) hi
  have hnotfound : ∀ a,
      a < d.InstructionStartOfBuiltin cfg 0 ∨ d.code.length ≤ a →
      TryLookupCode cfg d count a = .notFound := by
    intro a ha
    rw [TryLookupCode]
    by_cases h1 : a < d.code.length
    · rw [if_neg (by omega)]
      rcases ha with ha | ha
      · rw [if_pos ha]
      · omega
    · rw [if_pos (by omega)]
  have hfound : ∀ a, d.InstructionStartOfBuiltin cfg 0 ≤ a →
      a < d.code.length →
      ∃ i, TryLookupCode cfg d count a = .found i ∧ i < count ∧
        d.InstructionStartOfBuiltin cfg i ≤ a ∧
        a < d.InstructionStartOfBuiltin cfg i +
          d.PaddedInstructionSizeOfBuiltin cfg i ∧
        ∀ j, j < count → d.InstructionStartOfBuiltin cfg j ≤ a →
          a < d.InstructionStartOfBuiltin cfg j +
            d.PaddedInstructionSizeOfBuiltin cfg j → j = i := by
    intro a ha0 halen
    rcases lookupLoop_found cfg d count hcont' a count 0 count hcount
        (Nat.le_refl count) (by omega) ha0 (by omega) with
      ⟨i, hloop, -, hic, hsi, hei⟩
    refine ⟨i, ?_, hic, hsi, hei, ?_⟩
    · rw [TryLookupCode, if_neg (by omega), if_neg (by omega)]
      exact hloop
    · intro j hj hsj hej
      exact lookup_unique cfg d count hcont' a j i hj hic hsj hej hsi hei
  refine ⟨hnotfound, hfound, ?_, by decide, by decide, by decide⟩
  intro i hi a hsa hea
  have ha0 : d.InstructionStartOfBuiltin cfg 0 ≤ a := by
    have := start_le_start cfg d count hcont' i 0 (by omega)
    simp only [Nat.zero_add] at this
    omega
  have halen : a < d.code.length := by
    rcases Nat.lt_or_ge i (count - 1) with h | h
    · have := end_le_start cfg d count hcont' i (count - 1) (by omega)
        (by omega)
      omega
    · have : i = count - 1 := by omega
      rw [this] at hea
      omega
  rcases hfound a ha0 halen with ⟨i', hres, hic', hsi', hei', huniq⟩
  rw [show i = i' from huniq i hi hsa hea]
  exact hres

theorem C4_resolver_witness :
    (0 < 3 ∧
      scenarioBlob.InstructionStartOfBuiltin scenarioConfig 2 +
        scenarioBlob.PaddedInstructionSizeOfBuiltin scenarioConfig 2 =
          scenarioBlob.code.length) ∧
    TryLookupCode scenarioConfig scenarioBlob 3 40 = .found 1 ∧
    TryLookupCode scenarioConfig scenarioBlob 3 48 = .found 1 ∧
    TryLookupCode scenarioConfig scenarioBlob 3 64 = .found 2 :=
  ⟨⟨by decide, by decide⟩,
    (C4_resolver scenarioConfig scenarioBlob 3 (by decide) (by decide)
      (by decide)).2.2.2⟩

/-- C6: the blob integrity hash is computed by `CreateEmbeddedBlobHash` over
the metadata buffer minus the hash field plus the entire code buffer, and is
stored into the hash field at metadata offset 0 as the last build step, after
`FinalizeEmbeddedCodeTargets`; on the finished blob, recomputing the
checksum yields exactly the stored value. -/
theorem C6_blob_hash (cfg : Config) (iso : BuildInput) (d : EmbeddedData)
    (h : EmbeddedData.FromIsolate cfg iso = .ok d) :
    ∃ s, FinalizeEmbeddedCodeTargets cfg iso (preRelocBlob cfg iso) =
        .ok s ∧
      d = storeBlobHash s.blob ∧
      d.EmbeddedBlobHash = d.CreateEmbeddedBlobHash ∧
      d.CreateEmbeddedBlobHash =
        Checksum (d.metadata.drop EmbeddedBlobHashSize) d.code := by
  rcases (fromIsolate_ok_iff cfg iso d).mp h with ⟨-, s, hs, hd⟩
  have hmeta : s.blob.metadata = wordBytes 0 ++
      (wordBytes iso.isolateHash ++
        metadataTableBytes
          (layout cfg.kCodeAlignment
            (iso.builtins.map fun c => c.bytes.length)).1) := by
    rw [finalizeUnits_ok_metadata cfg iso _ _ _ _ hs, preRelocBlob_metadata]
  refine ⟨s, hs, hd, ?_, rfl⟩
  rw [hd, embeddedBlobHash_storeBlobHash s.blob _ _ hmeta (wordBytes_length 0),
    createHash_storeBlobHash s.blob _ _ hmeta (wordBytes_length 0)]

theorem C6_blob_hash_witness :
    EmbeddedData.FromIsolate scenarioConfig scenarioInput =
      .ok scenarioBlob ∧
    scenarioBlob.EmbeddedBlobHash = scenarioBlob.CreateEmbeddedBlobHash :=
  ⟨by decide, by
    rcases C6_blob_hash scenarioConfig scenarioInput scenarioBlob (by decide)
      with ⟨s, -, -, heq, -⟩
    exact heq⟩

/-- C5: the Relocation Fixer walks the on-heap and blob-copy relocation
iterators (both filtered to code-target / relative-code-target kinds) in
lockstep — they always yield the same count and pointwise the same record
kinds.  On architectures with direct code-to-code targets it succeeds exactly
when every record's resolved target unit passes the isolate-independent
builtin CHECK (`allTargetsOk`), in which case the result is the input blob
with each record's off-heap slot overwritten by the blob-relative instruction
start of its target unit (`buildWritePlan`), the metadata untouched, and zero
write-barrier bookkeeping events; any failing resolution is a fatal error.
On all other architectures it succeeds exactly when every unit's filtered
record list is empty, leaving the blob untouched, and any record found is a
fatal error. -/
theorem C5_relocation_fixer (cfg : Config) (iso : BuildInput)
    (blob : EmbeddedData) :
    (∀ code, (onHeapRelocs code).length =
        (offHeapRelocs blob code).length ∧
      (onHeapRelocs code).map Reloc.rmode =
        (offHeapRelocs blob code).map Reloc.rmode) ∧
    (cfg.directCodeTargets = true →
      FinalizeEmbeddedCodeTargets cfg iso blob =
        if allTargetsOk iso then
          .ok ⟨⟨applyWrites
              (buildWritePlan cfg iso blob.metadata 0 iso.builtins)
              blob.code, blob.metadata⟩, 0⟩
        else .error .relocationFailure) ∧
    (cfg.directCodeTargets = false →
      FinalizeEmbeddedCodeTargets cfg iso blob =
        if iso.builtins.all (fun c => (onHeapRelocs c).isEmpty) then
          .ok ⟨blob, 0⟩
        else .error .relocationFailure) :=
  ⟨fun _ => ⟨rfl, rfl⟩,
    fun hd => finalize_eq_direct cfg iso blob hd,
    fun hd => finalize_eq_indirect cfg iso blob hd⟩

theorem C5_relocation_fixer_witness :
    FinalizeEmbeddedCodeTargets scenarioConfig relocInput
        (preRelocBlob scenarioConfig relocInput) =
      if allTargetsOk relocInput then
        .ok ⟨⟨applyWrites
            (buildWritePlan scenarioConfig relocInput
              (preRelocBlob scenarioConfig relocInput).metadata 0
              relocInput.builtins)
            (preRelocBlob scenarioConfig relocInput).code,
          (preRelocBlob scenarioConfig relocInput).metadata⟩, 0⟩
      else .error .relocationFailure :=
  (C5_relocation_fixer scenarioConfig relocInput
    (preRelocBlob scenarioConfig relocInput)).2.1 rfl

/-- C8: on architectures with direct code-to-code targets, running the
relocation fixer a second time over an already-fixed blob (with the on-heap
units unchanged) succeeds and returns a byte-identical blob: every write of
the second pass stores the value the slot already holds, so the fix-up is
idempotent. -/
theorem C8_relocation_idempotent (cfg : Config) (iso : BuildInput)
    (blob : EmbeddedData) (s : FixState)
    (hd : cfg.directCodeTargets = true)
    (h : FinalizeEmbeddedCodeTargets cfg iso blob = .ok s) :
    FinalizeEmbeddedCodeTargets cfg iso s.blob = .ok s := by
  rw [finalize_eq_direct cfg iso blob hd] at h
  by_cases hok : allTargetsOk iso = true
  · rw [if_pos hok] at h
    have hs : s = ⟨⟨applyWrites
        (buildWritePlan cfg iso blob.metadata 0 iso.builtins) blob.code,
        blob.metadata⟩, 0⟩ := by
      injection h with h'
      exact h'.symm
    rw [finalize_eq_direct cfg iso s.blob hd, if_pos hok, hs]
    rw [applyWrites_idem]
  · rw [if_neg hok] at h
    cases h

theorem C8_relocation_idempotent_witness :
    scenarioConfig.directCodeTargets = true ∧
    FinalizeEmbeddedCodeTargets scenarioConfig relocInput
      (preRelocBlob scenarioConfig relocInput) = .ok relocFixedState ∧
    FinalizeEmbeddedCodeTargets scenarioConfig relocInput
      relocFixedState.blob = .ok relocFixedState :=
  ⟨rfl, by decide,
    C8_relocation_idempotent scenarioConfig relocInput
      (preRelocBlob scenarioConfig relocInput) relocFixedState rfl
      (by decide)⟩

/-- C7: instantiation allocates two regions sized to the next page-size
multiple of each buffer at aligned randomized hints, copies the blob bytes
in, transitions the code region to read+execute and the metadata region to
read-only, and returns the pointers with the original unpadded sizes;
disposal frees both regions after rounding each size up to the same page-size
multiple; and any allocation, permission-transition, or release failure is a
fatal error. -/
theorem C7_lifecycle (cfg : Config) (iso : BuildInput) (env : PageEnv)
    (d : EmbeddedData) (hd : EmbeddedData.FromIsolate cfg iso = .ok d)
    (ca ma : Nat) (h1 : env.allocatePagesResult1 = some ca)
    (h2 : env.allocatePagesResult2 = some ma)
    (hp1 : env.setPermissionsOk1 = true)
    (hp2 : env.setPermissionsOk2 = true) :
    CreateOffHeapInstructionStream cfg iso env =
      .ok (⟨ca, d.code.length, d.code, ma, d.metadata.length, d.metadata⟩,
        [.allocatePages
            (AlignedAddress env.randomMmapAddr1 env.allocatePageSize)
            (RoundUp d.code.length env.allocatePageSize)
            env.allocatePageSize .kReadWrite,
          .allocatePages
            (AlignedAddress env.randomMmapAddr2 env.allocatePageSize)
            (RoundUp d.metadata.length env.allocatePageSize)
            env.allocatePageSize .kReadWrite,
          .copyBytes ca d.code,
          .setPermissions ca (RoundUp d.code.length env.allocatePageSize)
            .kReadExecute,
          .copyBytes ma d.metadata,
          .setPermissions ma
            (RoundUp d.metadata.length env.allocatePageSize) .kRead,
          .disposeBuildBuffers]) ∧
    (env.freePagesOk1 = true → env.freePagesOk2 = true →
      FreeOffHeapInstructionStream env ca d.code.length ma
          d.metadata.length =
        .ok [.freePages ca (RoundUp d.code.length env.allocatePageSize),
          .freePages ma (RoundUp d.metadata.length env.allocatePageSize)]) ∧
    (∀ env' : PageEnv, env'.allocatePagesResult1 = none ∨
        env'.allocatePagesResult2 = none ∨
        env'.setPermissionsOk1 = false ∨ env'.setPermissionsOk2 = false →
      ∃ e, CreateOffHeapInstructionStream cfg iso env' = .error e) ∧
    (∀ (env' : PageEnv) (c cs m ms : Nat),
      env'.freePagesOk1 = false ∨ env'.freePagesOk2 = false →
      ∃ e, FreeOffHeapInstructionStream env' c cs m ms = .error e) := by
  refine ⟨?_, ?_, ?_, ?_⟩
  · simp [CreateOffHeapInstructionStream, hd, h1, h2, hp1, hp2]
  · intro hf1 hf2
    simp [FreeOffHeapInstructionStream, hf1, hf2]
  · intro env' hbad
    refine ⟨.checkFailure, ?_⟩
    rcases ha1 : env'.allocatePagesResult1 with _ | ca'
    · simp [CreateOffHeapInstructionStream, hd, ha1]
    · rcases ha2 : env'.allocatePagesResult2 with _ | ma'
      · simp [CreateOffHeapInstructionStream, hd, ha1, ha2]
      · rcases hbad with hb | hb | hb | hb
        · rw [ha1] at hb
          cases hb
        · rw [ha2] at hb
          cases hb
        · simp [CreateOffHeapInstructionStream, hd, ha1, ha2, hb]
        · rcases hsp1 : env'.setPermissionsOk1 with _ | _ <;>
            simp [CreateOffHeapInstructionStream, hd, ha1, ha2, hsp1, hb]
  · intro env' c cs m ms hbad
    refine ⟨.checkFailure, ?_⟩
    rcases hbad with hb | hb
    · simp [FreeOffHeapInstructionStream, hb]
    · rcases hf1 : env'.freePagesOk1 with _ | _ <;>
        simp [FreeOffHeapInstructionStream, hf1, hb]

theorem C7_lifecycle_witness :
    EmbeddedData.FromIsolate scenarioConfig scenarioInput =
      .ok scenarioBlob ∧
    CreateOffHeapInstructionStream scenarioConfig scenarioInput envOk =
      .ok (⟨65536, scenarioBlob.code.length, scenarioBlob.code,
          131072, scenarioBlob.metadata.length, scenarioBlob.metadata⟩,
        [.allocatePages
            (AlignedAddress envOk.randomMmapAddr1 envOk.allocatePageSize)
            (RoundUp scenarioBlob.code.length envOk.allocatePageSize)
            envOk.allocatePageSize .kReadWrite,
          .allocatePages
            (AlignedAddress envOk.randomMmapAddr2 envOk.allocatePageSize)
            (RoundUp scenarioBlob.metadata.length envOk.allocatePageSize)
            envOk.allocatePageSize .kReadWrite,
          .copyBytes 65536 scenarioBlob.code,
          .setPermissions 65536
            (RoundUp scenarioBlob.code.length envOk.allocatePageSize)
            .kReadExecute,
          .copyBytes 131072 scenarioBlob.metadata,
          .setPermissions 131072
            (RoundUp scenarioBlob.metadata.length envOk.allocatePageSize)
            .kRead,
          .disposeBuildBuffers]) :=
  ⟨by decide,
    (C7_lifecycle scenarioConfig scenarioInput envOk scenarioBlob (by decide)
      65536 131072 rfl rfl rfl rfl).1⟩

/-- C9: on a successful instantiation, the build-time blob buffers are
disposed as the very last step before returning (the final trace event), and
the out-parameters carry the freshly allocated region pointers together with
copies of the build-time blob's bytes and its unpadded sizes — the new pages
hold the only surviving copy of the blob for that call. -/
theorem C9_dispose_build_buffers (cfg : Config) (iso : BuildInput)
    (env : PageEnv) (res : StreamResult) (trace : List PageEvent)
    (h : CreateOffHeapInstructionStream cfg iso env = .ok (res, trace)) :
    trace.getLast? = some .disposeBuildBuffers ∧
    ∃ d, EmbeddedData.FromIsolate cfg iso = .ok d ∧
      res.codeContents = d.code ∧ res.metadataContents = d.metadata ∧
      env.allocatePagesResult1 = some res.codePtr ∧
      env.allocatePagesResult2 = some res.metadataPtr ∧
      res.codeSize = d.code.length ∧
      res.metadataSize = d.metadata.length := by
  rw [CreateOffHeapInstructionStream] at h
  cases hfi : EmbeddedData.FromIsolate cfg iso with
  | error e =>
    rw [hfi] at h
    cases h
  | ok d =>
    rw [hfi] at h
    cases ha1 : env.allocatePagesResult1 with
    | none =>
      rw [ha1] at h
      cases h
    | some ca =>
      rw [ha1] at h
      cases ha2 : env.allocatePagesResult2 with
      | none =>
        rw [ha2] at h
        cases h
      | some ma =>
        rw [ha2] at h
        cases hp1 : env.setPermissionsOk1 with
        | false =>
          rw [hp1] at h
          cases h
        | true =>
          rw [hp1] at h
          cases hp2 : env.setPermissionsOk2 with
          | false =>
            rw [hp2] at h
            cases h
          | true =>
            rw [hp2] at h
            simp only [if_true] at h
            injection h with h'
            injection h' with hres htrace
            subst hres
            subst htrace
            exact ⟨rfl, d, rfl, rfl, rfl, rfl, rfl, rfl, rfl⟩

theorem C9_dispose_build_buffers_witness :
    CreateOffHeapInstructionStream scenarioConfig scenarioInput envOk =
      .ok (streamOutcome.1, streamOutcome.2) ∧
    streamOutcome.2.getLast? = some .disposeBuildBuffers :=
  ⟨by decide,
    (C9_dispose_build_buffers scenarioConfig scenarioInput envOk
      streamOutcome.1 streamOutcome.2 (by decide)).1⟩

/-- C10: for every valid code-unit index of a built blob, the unit's
instruction start plus its instruction length never exceeds the end of the
code region, and the instruction start can equal the code region's end
address only when the unit's instruction length is zero (the builder's
`DCHECK_LE`/`DCHECK_IMPLIES` invariants of `InstructionStartOfBuiltin`). -/
theorem C10_instruction_bounds (cfg : Config) (iso : BuildInput)
    (d : EmbeddedData) (ha : 0 < cfg.kCodeAlignment)
    (h : EmbeddedData.FromIsolate cfg iso = .ok d)
    (hfit : (layout cfg.kCodeAlignment
      (iso.builtins.map fun c => c.bytes.length)).2 < 2 ^ 32) :
    ∀ i, i < iso.builtins.length →
      d.InstructionStartOfBuiltin cfg i + d.InstructionSizeOfBuiltin i ≤
        d.code.length ∧
      (d.InstructionStartOfBuiltin cfg i = d.code.length →
        d.InstructionSizeOfBuiltin i = 0) := by
  intro i hi
  have hils : i < (iso.builtins.map fun c => c.bytes.length).length := by
    rw [List.length_map]
    exact hi
  have hoffpad := layout_offset_padded_le cfg.kCodeAlignment
    (iso.builtins.map fun c => c.bytes.length) i hils
  have hlenle := PadAndAlign_le cfg.kCodeAlignment
    (layout cfg.kCodeAlignment
      (iso.builtins.map fun c =>
        c.bytes.length)).1[i]!.instructions_length ha
  have hofflt : (layout cfg.kCodeAlignment
      (iso.builtins.map fun c =>
        c.bytes.length)).1[i]!.instructions_offset < 2 ^ 32 := by
    omega
  have hlenlt : (layout cfg.kCodeAlignment
      (iso.builtins.map fun c =>
        c.bytes.length)).1[i]!.instructions_length < 2 ^ 32 := by
    omega
  rw [fromIsolate_ok_start cfg iso d h i hi, fromIsolate_ok_size cfg iso d h
      i hi, fromIsolate_ok_code_length cfg iso d h,
    Nat.mod_eq_of_lt hofflt, Nat.mod_eq_of_lt hlenlt]
  omega

theorem C10_instruction_bounds_witness :
    (0 < scenarioConfig.kCodeAlignment ∧
      (layout scenarioConfig.kCodeAlignment
        (scenarioInput.builtins.map fun c => c.bytes.length)).2 < 2 ^ 32) ∧
    (scenarioBlob.InstructionStartOfBuiltin scenarioConfig 1 +
        scenarioBlob.InstructionSizeOfBuiltin 1 ≤
        scenarioBlob.code.length ∧
      (scenarioBlob.InstructionStartOfBuiltin scenarioConfig 1 =
          scenarioBlob.code.length →
        scenarioBlob.InstructionSizeOfBuiltin 1 = 0)) :=
  ⟨⟨by decide, by decide⟩,
    C10_instruction_bounds scenarioConfig scenarioInput scenarioBlob
      (by decide) (by decide) (by decide) 1 (by decide)⟩
